import Mathlib

/-!
Shallow embedding of the vinayagar greeting-card service: the web layer
`index.py` (name validation, per-client sliding-window rate limiting,
SHA-256 cache keys, TTL-bounded disk cache, request handlers) and the
renderer `vinayagar.py` (asset loading with graceful degradation and the
deterministic card-composition pipeline), together with proofs of the
specified properties.

Strings are modelled as `List Char`; wall-clock timestamps (Python
`time.time()`) as `ℚ`; the filesystem as an association list from path to
last-modified time, with an explicit failure oracle for `os.remove`.
-/

namespace Vinayagar

/-- Python's whitespace classification, shared by `str.strip()`, the
regex class `\s` and `str.isspace()` (the three coincide over all of
Unicode): U+0009 to U+000D, U+001C to U+001F, space, U+0085, U+00A0,
U+1680, U+2000 to U+200A, U+2028, U+2029, U+202F, U+205F and U+3000. -/
def isPySpace (c : Char) : Bool :=
  (9 ≤ c.toNat && c.toNat ≤ 13) || (28 ≤ c.toNat && c.toNat ≤ 32) ||
    c.toNat = 133 || c.toNat = 160 || c.toNat = 0x1680 ||
    (0x2000 ≤ c.toNat && c.toNat ≤ 0x200A) || c.toNat = 0x2028 ||
    c.toNat = 0x2029 || c.toNat = 0x202F || c.toNat = 0x205F ||
    c.toNat = 0x3000

/-- Python `s.strip()`: drop leading and trailing whitespace. -/
def pyStrip (s : List Char) : List Char :=
  ((s.dropWhile isPySpace).reverse.dropWhile isPySpace).reverse

/-- The ASCII fragment `[a-zA-Z0-9_]` of Python's regex class `\w`.
Python's Unicode `\w` agrees with this predicate on every ASCII
character and additionally matches the non-ASCII alphanumerics of the
Unicode database; where that larger class matters, the word-character
predicate is an explicit parameter (`w` below), and this fragment
instantiates it for the concrete ASCII inputs evaluated in this file. -/
def asciiWordChar (c : Char) : Bool :=
  c.isAlphanum || c = '_'

/-- Character class of the core validator's regex `[\w\s\-஀-௿]` in
`index.py` line 49, parametrized by the Unicode-database-dependent word
class `w` (Python's `\w`): word characters, whitespace (`\s`), hyphen,
and the Tamil block U+0B80 to U+0BFF. -/
def coreAllowedCharW (w : Char → Bool) (c : Char) : Bool :=
  w c || isPySpace c || c = '-' ||
    (0x0B80 ≤ c.toNat && c.toNat ≤ 0x0BFF)

/-- Rejection reasons raised by `validate_name` in `index.py` (the
`ValueError` messages "Empty name", "Invalid characters", "Too long"). -/
inductive NameError
  | emptyName
  | invalidChars
  | tooLong
deriving DecidableEq, Repr

/-- Core validator `validate_name` of `index.py` lines 39-55,
parametrized by the word class `w` of the regex's `\w`: strip the input,
reject when empty, reject when some character falls outside the
allow-list regex, reject when longer than 50; otherwise return the
stripped name. -/
def validate_nameW (w : Char → Bool) (raw : List Char) :
    Except NameError (List Char) :=
  let r := pyStrip raw
  if r.isEmpty then .error .emptyName
  else if !(r.all (coreAllowedCharW w)) then .error .invalidChars
  else if 50 < r.length then .error .tooLong
  else .ok r

/-- The validator at the ASCII word fragment.  The route handlers below
evaluate it only on concrete inputs whose characters Python's `\w`
classifies identically; `validate_nameW_congr` proves the verdict at any
input depends only on how the word class treats the characters actually
present. -/
def validate_name (raw : List Char) : Except NameError (List Char) :=
  validate_nameW asciiWordChar raw

/-- The reject-list of markup-significant characters checked by both web
routes (`index.py` line 413): `<`, `>`, double quote, single quote, `&`,
backquote. -/
def unsafeChars : List Char :=
  ['<', '>', '"', Char.ofNat 39, '&', Char.ofNat 96]

/-- Python `any(ch in raw_name for ch in [...])` on the reject-list. -/
def hasUnsafeChar (s : List Char) : Bool :=
  s.any (fun c => unsafeChars.contains c)

/-- Character class of the route-level regex `[\w\s\-\.À-￿]`
(`index.py` line 417): word characters (`\w`, taken at its ASCII
fragment — the source's class additionally matches the few non-ASCII
word characters below U+00C0, which no proved property depends on),
whitespace, hyphen, period, and U+00C0 to U+FFFF. -/
def slugAllowedChar (c : Char) : Bool :=
  asciiWordChar c || isPySpace c || c = '-' || c = '.' ||
    (0x00C0 ≤ c.toNat && c.toNat ≤ 0xFFFF)

/-- Rate-limiter constants `RATE_LIMIT, TIME_WINDOW = 5, 10`. -/
def RATE_LIMIT : Nat := 5

/-- Window duration in seconds. -/
def TIME_WINDOW : ℚ := 10

/-- The purge loop of `is_rate_limited`:
`while hits and now - hits[0] > TIME_WINDOW: hits.popleft()`. -/
def purgeOld (now : ℚ) : List ℚ → List ℚ
  | [] => []
  | t :: ts => if TIME_WINDOW < now - t then purgeOld now ts else t :: ts

/-- Rate limiter `is_rate_limited` of `index.py` lines 18-26, as a state
transformer on one client's deque of timestamps: purge stale timestamps
from the front, reject (`true`) when at least `RATE_LIMIT` remain, else
append `now` and admit (`false`). -/
def is_rate_limited (hits : List ℚ) (now : ℚ) : Bool × List ℚ :=
  let h := purgeOld now hits
  if RATE_LIMIT ≤ h.length then (true, h)
  else (false, h ++ [now])

/-- Timestamps of the admitted calls when the limiter is run over a
sequence of call times starting from deque `hits`. -/
def admittedTimes (hits : List ℚ) : List ℚ → List ℚ
  | [] => []
  | t :: ts =>
    let r := is_rate_limited hits t
    if r.1 then admittedTimes r.2 ts
    else t :: admittedTimes r.2 ts

/-- Membership of a timestamp in the closed rolling window
`[a, a + TIME_WINDOW]`. -/
def inWindow (a s : ℚ) : Bool :=
  decide (a ≤ s) && decide (s ≤ a + TIME_WINDOW)

theorem purgeOld_suffix (now : ℚ) (hits : List ℚ) :
    (purgeOld now hits).IsSuffix hits := by
  induction hits with
  | nil => simp [purgeOld]
  | cons t ts ih =>
    simp only [purgeOld]
    split
    · exact ih.trans (List.suffix_cons t ts)
    · exact List.suffix_rfl

theorem purgeOld_sublist (now : ℚ) (hits : List ℚ) :
    (purgeOld now hits).Sublist hits :=
  (purgeOld_suffix now hits).sublist

theorem purgeOld_length_le (now : ℚ) (hits : List ℚ) :
    (purgeOld now hits).length ≤ hits.length :=
  (purgeOld_sublist now hits).length_le

theorem purgeOld_subset (now : ℚ) (hits : List ℚ) :
    ∀ x ∈ purgeOld now hits, x ∈ hits :=
  fun _ hx => (purgeOld_sublist now hits).subset hx

/-- Purging only removes timestamps that lie strictly below the window
base `a`, provided the call time is at most `a + TIME_WINDOW`; hence the
count of timestamps at or above `a` is unchanged. -/
theorem countP_purgeOld (a now : ℚ) (hnow : now ≤ a + TIME_WINDOW)
    (hits : List ℚ) :
    (purgeOld now hits).countP (fun h => decide (a ≤ h)) =
      hits.countP (fun h => decide (a ≤ h)) := by
  induction hits with
  | nil => rfl
  | cons t ts ih =>
    simp only [purgeOld]
    split
    · rename_i hlt
      have hta : ¬ a ≤ t := by
        intro hat
        have : a + TIME_WINDOW < now := by linarith
        linarith
      rw [ih, List.countP_cons]
      simp [hta]
    · rfl

/-- A run of the limiter admits a subsequence of the call times. -/
theorem admittedTimes_sublist (hits times : List ℚ) :
    (admittedTimes hits times).Sublist times := by
  induction times generalizing hits with
  | nil => simp [admittedTimes]
  | cons t ts ih =>
    simp only [admittedTimes]
    split
    · exact (ih _).trans (List.sublist_cons_self t ts)
    · exact (ih _).cons₂ t

theorem countP_eq_zero_of_all_not {l : List ℚ} {p : ℚ → Bool}
    (h : ∀ x ∈ l, p x = false) : l.countP p = 0 := by
  rw [List.countP_eq_zero]
  intro x hx
  simp [h x hx]

theorem inWindow_eq_false_of_gt {a x : ℚ} (h : a + TIME_WINDOW < x) :
    inWindow a x = false := by
  simp only [inWindow, Bool.and_eq_false_iff, decide_eq_false_iff_not]
  right
  linarith

theorem purgeOld_eq_nil_of_all_old {now : ℚ} {hits : List ℚ}
    (h : ∀ x ∈ hits, TIME_WINDOW < now - x) : purgeOld now hits = [] := by
  induction hits with
  | nil => rfl
  | cons t ts ih =>
    simp only [purgeOld, if_pos (h t (List.mem_cons_self t ts))]
    exact ih fun x hx => h x (List.mem_cons_of_mem t hx)

/-- Core invariant of the sliding-window limiter: over a sorted sequence
of call times, the number of admitted calls falling in any window
`[a, a + TIME_WINDOW]` plus the number of deque entries at or above `a`
never exceeds `RATE_LIMIT`, provided the starting deque is sorted, bounded
by the limit, and precedes all call times. -/
theorem admitted_window_bound (a : ℚ) :
    ∀ (times hits : List ℚ),
      List.Sorted (· ≤ ·) times →
      List.Sorted (· ≤ ·) hits →
      (∀ h ∈ hits, ∀ t ∈ times, h ≤ t) →
      hits.length ≤ RATE_LIMIT →
      (admittedTimes hits times).countP (inWindow a) +
        hits.countP (fun h => decide (a ≤ h)) ≤ RATE_LIMIT := by
  intro times
  induction times with
  | nil =>
    intro hits _ _ _ hlen
    simpa [admittedTimes] using le_trans (List.countP_le_length _) hlen
  | cons t ts ih =>
    intro hits hsortT hsortH hcross hlen
    obtain ⟨hts, hsortTs⟩ := List.sorted_cons.mp hsortT
    have hPsub := purgeOld_sublist t hits
    have hPsort : List.Sorted (· ≤ ·) (purgeOld t hits) :=
      List.Pairwise.sublist hPsub hsortH
    have hPlen : (purgeOld t hits).length ≤ RATE_LIMIT :=
      le_trans (purgeOld_length_le t hits) hlen
    have hPcross : ∀ h ∈ purgeOld t hits, ∀ u ∈ ts, h ≤ u :=
      fun h hh u hu => hcross h (hPsub.subset hh) u (List.mem_cons_of_mem t hu)
    by_cases hcase : RATE_LIMIT ≤ (purgeOld t hits).length
    · -- the call at time t is rejected
      have heq : admittedTimes hits (t :: ts) =
          admittedTimes (purgeOld t hits) ts := by
        simp [admittedTimes, is_rate_limited, hcase]
      rw [heq]
      by_cases hat : a + TIME_WINDOW < t
      · have hzero : (admittedTimes (purgeOld t hits) ts).countP (inWindow a) = 0 := by
          apply countP_eq_zero_of_all_not
          intro x hx
          have hxts : x ∈ ts := (admittedTimes_sublist _ ts).subset hx
          exact inWindow_eq_false_of_gt (lt_of_lt_of_le hat (hts x hxts))
        rw [hzero, Nat.zero_add]
        exact le_trans (List.countP_le_length _) hlen
      · push_neg at hat
        have hcnt := countP_purgeOld a t hat hits
        have := ih (purgeOld t hits) hsortTs hPsort hPcross hPlen
        rw [hcnt] at this
        exact this
    · -- the call at time t is admitted
      push_neg at hcase
      have heq : admittedTimes hits (t :: ts) =
          t :: admittedTimes (purgeOld t hits ++ [t]) ts := by
        simp [admittedTimes, is_rate_limited, Nat.not_le.mpr hcase]
      rw [heq, List.countP_cons]
      have hPle : ∀ x ∈ purgeOld t hits, x ≤ t :=
        fun x hx => hcross x (hPsub.subset hx) t (List.mem_cons_self t ts)
      have hsortH2 : List.Sorted (· ≤ ·) (purgeOld t hits ++ [t]) := by
        rw [List.Sorted, List.pairwise_append]
        exact ⟨hPsort, List.pairwise_singleton _ t,
          fun x hx y hy => by rw [List.mem_singleton] at hy; rw [hy]; exact hPle x hx⟩
      have hcross2 : ∀ h ∈ purgeOld t hits ++ [t], ∀ u ∈ ts, h ≤ u := by
        intro h hh u hu
        rcases List.mem_append.mp hh with hh | hh
        · exact hPcross h hh u hu
        · rw [List.mem_singleton] at hh; rw [hh]; exact hts u hu
      have hlen2 : (purgeOld t hits ++ [t]).length ≤ RATE_LIMIT := by
        rw [List.length_append, List.length_singleton]
        omega
      have hIH := ih (purgeOld t hits ++ [t]) hsortTs hsortH2 hcross2 hlen2
      rw [List.countP_append] at hIH
      by_cases hat : a + TIME_WINDOW < t
      · have hzero : (admittedTimes (purgeOld t hits ++ [t]) ts).countP (inWindow a) = 0 := by
          apply countP_eq_zero_of_all_not
          intro x hx
          have hxts : x ∈ ts := (admittedTimes_sublist _ ts).subset hx
          exact inWindow_eq_false_of_gt (lt_of_lt_of_le hat (hts x hxts))
        rw [hzero, inWindow_eq_false_of_gt hat]
        simpa using le_trans (List.countP_le_length _) hlen
      · push_neg at hat
        have hcnt := countP_purgeOld a t hat hits
        rw [hcnt] at hIH
        by_cases haw : a ≤ t
        · have hw : inWindow a t = true := by
            simp [inWindow, haw, hat]
          rw [hw, if_pos rfl]
          simp only [List.countP_singleton, decide_eq_true_eq, if_pos haw] at hIH
          omega
        · have hw : inWindow a t = false := by
            simp [inWindow, haw]
          rw [hw, if_neg Bool.false_ne_true]
          simp only [List.countP_singleton, decide_eq_true_eq, if_neg haw] at hIH
          omega

/-- C1: on each call the rate limiter first purges timestamps older than
the 10-second window from the front of the client's deque; when at least
5 timestamps remain the call is rejected without appending; otherwise the
current timestamp is appended and the call is admitted.  Consequently,
over any monotone sequence of call times starting from an empty deque, at
most 5 calls are admitted within any rolling window `[a, a + 10]`, and a
call made after every stored timestamp has aged out of the window is
admitted again. -/
theorem C1_rate_limiter :
    (∀ hits now, RATE_LIMIT ≤ (purgeOld now hits).length →
        is_rate_limited hits now = (true, purgeOld now hits)) ∧
    (∀ hits now, (purgeOld now hits).length < RATE_LIMIT →
        is_rate_limited hits now = (false, purgeOld now hits ++ [now])) ∧
    (∀ times, List.Sorted (· ≤ ·) times → ∀ a : ℚ,
        (admittedTimes [] times).countP (inWindow a) ≤ RATE_LIMIT) ∧
    (∀ hits now, (∀ h ∈ hits, TIME_WINDOW < now - h) →
        is_rate_limited hits now = (false, [now])) := by
  refine ⟨?_, ?_, ?_, ?_⟩
  · intro hits now h
    simp [is_rate_limited, h]
  · intro hits now h
    simp [is_rate_limited, Nat.not_le.mpr h]
  · intro times hsort a
    have h := admitted_window_bound a times [] hsort (by simp)
      (by simp) (by simp [RATE_LIMIT])
    simpa using h
  · intro hits now h
    have hp : purgeOld now hits = [] := purgeOld_eq_nil_of_all_old h
    simp [is_rate_limited, hp, RATE_LIMIT]

/-- C1 witness: a full deque rejects at time 5; seven admissible one-second
calls admit at most five in the window starting at 0; a stale deque is
fully purged and readmits at time 20. -/
theorem C1_rate_limiter_witness :
    is_rate_limited [0, 1, 2, 3, 4] 5 = (true, [0, 1, 2, 3, 4]) ∧
    (admittedTimes [] [0, 1, 2, 3, 4, 5, 6]).countP (inWindow 0) ≤ RATE_LIMIT ∧
    is_rate_limited [0, 1] 20 = (false, [20]) := by
  refine ⟨?_, ?_, ?_⟩
  · have h5 : purgeOld (5 : ℚ) [0, 1, 2, 3, 4] = [0, 1, 2, 3, 4] := by
      norm_num [purgeOld, TIME_WINDOW]
    have := C1_rate_limiter.1 [0, 1, 2, 3, 4] 5 (by rw [h5]; norm_num [RATE_LIMIT])
    rwa [h5] at this
  · exact C1_rate_limiter.2.2.1 [0, 1, 2, 3, 4, 5, 6]
      (by norm_num [List.sorted_cons]) 0
  · exact C1_rate_limiter.2.2.2 [0, 1] 20
      (by intro h hh; fin_cases hh <;> norm_num [TIME_WINDOW])

/-- Stripping only removes characters, so every character of the
stripped string occurs in the input. -/
theorem pyStrip_subset {c : Char} {s : List Char} (hc : c ∈ pyStrip s) :
    c ∈ s := by
  unfold pyStrip at hc
  rw [List.mem_reverse] at hc
  have h1 := (List.dropWhile_sublist _).subset hc
  rw [List.mem_reverse] at h1
  exact (List.dropWhile_sublist _).subset h1

theorem all_congr_of_mem {l : List Char} {p q : Char → Bool}
    (h : ∀ c ∈ l, p c = q c) : l.all p = l.all q := by
  induction l with
  | nil => rfl
  | cons a t ih =>
    simp only [List.all_cons]
    rw [h a (List.mem_cons_self a t),
      ih fun c hc => h c (List.mem_cons_of_mem a hc)]

/-- The validator's verdict at an input depends only on how the word
class classifies the characters actually present in that input: any two
extensions of `\w` that agree on them produce the same result. -/
theorem validate_nameW_congr (w₁ w₂ : Char → Bool) (raw : List Char)
    (h : ∀ c ∈ raw, w₁ c = w₂ c) :
    validate_nameW w₁ raw = validate_nameW w₂ raw := by
  have hpt : ∀ c ∈ pyStrip raw, coreAllowedCharW w₁ c = coreAllowedCharW w₂ c := by
    intro c hc
    simp only [coreAllowedCharW]
    rw [h c (pyStrip_subset hc)]
  simp only [validate_nameW]
  rw [all_congr_of_mem hpt]

/-- C2 counterexample: a 51-character input made of `!` characters has
trimmed length above the maximum, yet `validate_name` rejects it with the
invalid-characters error (the regex check at line 49 runs before the
length check at line 52), not with the too-long error.  Every character
of this input is `!`, which Python's `\w` and whitespace classes exclude
just as the ASCII instantiation used here does, and by
`validate_nameW_congr` the verdict depends on nothing else, so the
source behaves identically at this input. -/
theorem C2_counterexample :
    50 < (pyStrip (List.replicate 51 '!')).length ∧
    validate_name (List.replicate 51 '!') ≠ Except.error NameError.tooLong ∧
    validate_name (List.replicate 51 '!') = Except.error NameError.invalidChars := by
  refine ⟨by decide, ?_, rfl⟩
  intro h
  rw [show validate_name (List.replicate 51 '!') =
    Except.error NameError.invalidChars from rfl] at h
  exact absurd (Except.error.inj h) (by decide)

/-- C2 (amended): for every extension `w` of the regex word class — in
particular for Python's Unicode `\w` — every input whose trimmed length
exceeds 50 is rejected by the validator, but not always with the
too-long error: the allow-list regex check at line 49 runs before the
length check at line 52, so a too-long input that also contains
characters outside the allow-list is rejected with the
invalid-characters error, and the too-long error is raised exactly when
the trimmed input passes the allow-list. -/
theorem C2_too_long_rejected (w : Char → Bool) (raw : List Char)
    (h : 50 < (pyStrip raw).length) :
    (validate_nameW w raw = Except.error NameError.invalidChars ∨
      validate_nameW w raw = Except.error NameError.tooLong) ∧
    ((pyStrip raw).all (coreAllowedCharW w) = true →
      validate_nameW w raw = Except.error NameError.tooLong) := by
  have h0 : (pyStrip raw).isEmpty = false := by
    cases hp : pyStrip raw with
    | nil => rw [hp] at h; simp at h
    | cons c cs => rfl
  constructor
  · by_cases hall : (pyStrip raw).all (coreAllowedCharW w) = true
    · right
      simp [validate_nameW, h0, hall, h]
    · left
      simp [validate_nameW, h0, Bool.not_eq_true _ ▸ hall]
  · intro hall
    simp [validate_nameW, h0, hall, h]

/-- C2 witness: at the ASCII instantiation of the word class, 51 letters
`a` are rejected with the too-long error. -/
theorem C2_too_long_rejected_witness :
    50 < (pyStrip (List.replicate 51 'a')).length ∧
    validate_nameW asciiWordChar (List.replicate 51 'a') =
      Except.error NameError.tooLong :=
  ⟨by decide,
    (C2_too_long_rejected asciiWordChar (List.replicate 51 'a')
      (by decide)).2 (by decide)⟩

/-!
Cache-key derivation.  `get_cache_key` in `index.py` line 28 is
`hashlib.sha256(name.encode("utf-8")).hexdigest()`.  `hashlib` and
`str.encode` are Python standard-library collaborators outside this
repository, so they are modelled here from their specifications:
SHA-256 exactly as in FIPS 180-4 (words are `Nat` reduced modulo `2^32`)
and UTF-8 encoding as in RFC 3629.
-/

/-- Reduction modulo `2 ^ 32`, the word arithmetic of SHA-256. -/
def w32 (n : Nat) : Nat := n % 4294967296

/-- Right rotation of a 32-bit word. -/
def rotr32 (n x : Nat) : Nat := w32 ((x >>> n) ||| (x <<< (32 - n)))

/-- SHA-256 round constants (FIPS 180-4 section 4.2.2). -/
def sha256K : List Nat :=
  [1116352408, 1899447441, 3049323471, 3921009573,
   961987163, 1508970993, 2453635748, 2870763221,
   3624381080, 310598401, 607225278, 1426881987,
   1925078388, 2162078206, 2614888103, 3248222580,
   3835390401, 4022224774, 264347078, 604807628,
   770255983, 1249150122, 1555081692, 1996064986,
   2554220882, 2821834349, 2952996808, 3210313671,
   3336571891, 3584528711, 113926993, 338241895,
   666307205, 773529912, 1294757372, 1396182291,
   1695183700, 1986661051, 2177026350, 2456956037,
   2730485921, 2820302411, 3259730800, 3345764771,
   3516065817, 3600352804, 4094571909, 275423344,
   430227734, 506948616, 659060556, 883997877,
   958139571, 1322822218, 1537002063, 1747873779,
   1955562222, 2024104815, 2227730452, 2361852424,
   2428436474, 2756734187, 3204031479, 3329325298]

/-- SHA-256 big sigma 0. -/
def bsig0 (x : Nat) : Nat := rotr32 2 x ^^^ rotr32 13 x ^^^ rotr32 22 x

/-- SHA-256 big sigma 1. -/
def bsig1 (x : Nat) : Nat := rotr32 6 x ^^^ rotr32 11 x ^^^ rotr32 25 x

/-- SHA-256 small sigma 0. -/
def ssig0 (x : Nat) : Nat := rotr32 7 x ^^^ rotr32 18 x ^^^ (x >>> 3)

/-- SHA-256 small sigma 1. -/
def ssig1 (x : Nat) : Nat := rotr32 17 x ^^^ rotr32 19 x ^^^ (x >>> 10)

/-- SHA-256 choose function (`(x and y) xor (not x and z)` on 32 bits). -/
def chFn (x y z : Nat) : Nat := (x &&& y) ^^^ ((4294967295 - x) &&& z)

/-- SHA-256 majority function. -/
def majFn (x y z : Nat) : Nat := (x &&& y) ^^^ (x &&& z) ^^^ (y &&& z)

/-- Big-endian byte serialization of `n` on `k` bytes. -/
def toBytesBE : Nat → Nat → List Nat
  | 0, _ => []
  | k + 1, n => toBytesBE k (n >>> 8) ++ [n &&& 255]

/-- SHA-256 padding: append `0x80`, zero bytes up to 56 mod 64, and the
bit length on 8 big-endian bytes. -/
def sha256Pad (msg : List Nat) : List Nat :=
  let l := msg.length
  let zeros := (64 - ((l + 9) % 64)) % 64
  msg ++ [128] ++ List.replicate zeros 0 ++ toBytesBE 8 (8 * l)

/-- Group bytes into big-endian 32-bit words. -/
def bytesToWords : List Nat → List Nat
  | b0 :: b1 :: b2 :: b3 :: rest =>
    ((b0 <<< 24) ||| (b1 <<< 16) ||| (b2 <<< 8) ||| b3) :: bytesToWords rest
  | _ => []

/-- Split the first `k` successive 16-word message blocks off a word
list. -/
def chunksAux : Nat → List Nat → List (List Nat)
  | 0, _ => []
  | k + 1, w => w.take 16 :: chunksAux k (w.drop 16)

/-- Split a word list (whose length is a multiple of 16 after padding)
into successive 16-word message blocks. -/
def chunks16 (w : List Nat) : List (List Nat) :=
  chunksAux (w.length / 16) w

/-- Extend a 16-word block by `k` message-schedule words
(FIPS 180-4 section 6.2.2 step 1). -/
def extendW (ws : List Nat) : Nat → List Nat
  | 0 => ws
  | k + 1 =>
    let w := extendW ws k
    w ++ [w32 (ssig1 (w.getD (w.length - 2) 0) + w.getD (w.length - 7) 0 +
      ssig0 (w.getD (w.length - 15) 0) + w.getD (w.length - 16) 0)]

/-- The eight 32-bit working variables of the SHA-256 compression
function. -/
structure Hash8 where
  a : Nat
  b : Nat
  c : Nat
  d : Nat
  e : Nat
  f : Nat
  g : Nat
  h : Nat
deriving DecidableEq, Repr

/-- One SHA-256 compression round (FIPS 180-4 section 6.2.2 step 3). -/
def sha256Round (st : Hash8) (kt wt : Nat) : Hash8 :=
  let t1 := w32 (st.h + bsig1 st.e + chFn st.e st.f st.g + kt + wt)
  let t2 := w32 (bsig0 st.a + majFn st.a st.b st.c)
  ⟨w32 (t1 + t2), st.a, st.b, st.c, w32 (st.d + t1), st.e, st.f, st.g⟩

/-- SHA-256 compression of one 16-word block into the running hash. -/
def sha256Compress (hs : Hash8) (block : List Nat) : Hash8 :=
  let ws := extendW block 48
  let st := (sha256K.zip ws).foldl (fun st kw => sha256Round st kw.1 kw.2) hs
  ⟨w32 (hs.a + st.a), w32 (hs.b + st.b), w32 (hs.c + st.c), w32 (hs.d + st.d),
   w32 (hs.e + st.e), w32 (hs.f + st.f), w32 (hs.g + st.g), w32 (hs.h + st.h)⟩

/-- SHA-256 initial hash value (FIPS 180-4 section 5.3.3). -/
def sha256H0 : Hash8 :=
  ⟨1779033703, 3144134277, 1013904242, 2773480762,
   1359893119, 2600822924, 528734635, 1541459225⟩

/-- SHA-256 digest of a byte string, as eight 32-bit words. -/
def sha256Words (msg : List Nat) : List Nat :=
  let f := (chunks16 (bytesToWords (sha256Pad msg))).foldl sha256Compress sha256H0
  [f.a, f.b, f.c, f.d, f.e, f.f, f.g, f.h]

/-- Lowercase hexadecimal digit, as produced by Python `hexdigest()`. -/
def hexDigit (n : Nat) : Char :=
  if n < 10 then Char.ofNat (48 + n) else Char.ofNat (87 + n)

/-- Eight-character lowercase hexadecimal rendering of a 32-bit word. -/
def wordToHex (w : Nat) : List Char :=
  [hexDigit ((w >>> 28) &&& 15), hexDigit ((w >>> 24) &&& 15),
   hexDigit ((w >>> 20) &&& 15), hexDigit ((w >>> 16) &&& 15),
   hexDigit ((w >>> 12) &&& 15), hexDigit ((w >>> 8) &&& 15),
   hexDigit ((w >>> 4) &&& 15), hexDigit (w &&& 15)]

/-- Hexadecimal SHA-256 digest of a byte string, 64 lowercase hex
characters (the behaviour of `hashlib.sha256(...).hexdigest()`). -/
def sha256Hex (msg : List Nat) : List Char :=
  ((sha256Words msg).map wordToHex).flatten

/-- UTF-8 encoding of one character (RFC 3629), the behaviour of Python
`str.encode("utf-8")` per code point. -/
def utf8Char (c : Char) : List Nat :=
  let n := c.toNat
  if n < 128 then [n]
  else if n < 2048 then [192 ||| (n >>> 6), 128 ||| (n &&& 63)]
  else if n < 65536 then
    [224 ||| (n >>> 12), 128 ||| ((n >>> 6) &&& 63), 128 ||| (n &&& 63)]
  else
    [240 ||| (n >>> 18), 128 ||| ((n >>> 12) &&& 63),
     128 ||| ((n >>> 6) &&& 63), 128 ||| (n &&& 63)]

/-- UTF-8 encoding of a string. -/
def utf8Encode (s : List Char) : List Nat := (s.map utf8Char).flatten

/-- The cache-key derivation `get_cache_key` of `index.py` lines 28-29:
`hashlib.sha256(name.encode("utf-8")).hexdigest()`. -/
def get_cache_key (name : List Char) : List Char :=
  sha256Hex (utf8Encode name)

theorem length_wordToHex (w : Nat) : (wordToHex w).length = 8 := rfl

theorem length_sha256Hex (msg : List Nat) : (sha256Hex msg).length = 64 := by
  simp [sha256Hex, sha256Words, List.length_append, length_wordToHex]

set_option maxRecDepth 100000 in
/-- C4: the cache-key derivation is the pure function sending a name to
the SHA-256 hexadecimal digest (64 lowercase hex characters) of its UTF-8
encoding, hence deterministic: equal names give equal keys.  The final
conjunct pins the SHA-256 model to the published test value: the digest
of `"Kumar"` matches the true SHA-256 value. -/
theorem C4_cache_key :
    (∀ name : List Char, get_cache_key name = sha256Hex (utf8Encode name)) ∧
    (∀ n₁ n₂ : List Char, n₁ = n₂ → get_cache_key n₁ = get_cache_key n₂) ∧
    (∀ name : List Char, (get_cache_key name).length = 64) ∧
    get_cache_key "Kumar".toList =
      "1549b4b4f1fa21d58b586a0861481fb27f30fb6aa0c3100ae463fe2b0c77c625".toList := by
  refine ⟨fun _ => rfl, fun n₁ n₂ h => by rw [h], fun name => length_sha256Hex _, ?_⟩
  rfl

/-- C4 witness: equal names yield equal keys, instantiated at `"Kumar"`. -/
theorem C4_cache_key_witness :
    get_cache_key "Kumar".toList = get_cache_key "Kumar".toList :=
  C4_cache_key.2.1 "Kumar".toList "Kumar".toList rfl

/-!
Artifact cache.  `image_cache` is a Python dict from cache key to file
path, modelled as an association list; the on-disk cache directory is
modelled as an association list from path to last-modified time
(`os.path.getmtime`).  `os.remove` may raise an `OSError`; which paths
fail to delete is an explicit oracle argument.
-/

/-- Association-list lookup: Python dict access, first matching key. -/
def alookup {α β : Type} [DecidableEq α] (k : α) : List (α × β) → Option β
  | [] => none
  | (x, v) :: rest => if x = k then some v else alookup k rest

/-- Association-list removal of a key: Python `dict.pop(k, None)` /
`os.remove`. -/
def aerase {α β : Type} [DecidableEq α] (k : α) : List (α × β) → List (α × β)
  | [] => []
  | (x, v) :: rest => if x = k then rest else (x, v) :: aerase k rest

/-- Association-list insert-or-update: Python `d[k] = v` (an existing key
keeps its position, a new key is appended). -/
def ainsert {α β : Type} [DecidableEq α] (k : α) (v : β) :
    List (α × β) → List (α × β)
  | [] => [(k, v)]
  | (x, v') :: rest =>
    if x = k then (k, v) :: rest else (x, v') :: ainsert k v rest

/-- Key uniqueness, the invariant Python dicts (and the filesystem's path
namespace) maintain. -/
def nodupKeys {α β : Type} (l : List (α × β)) : Prop :=
  (l.map Prod.fst).Nodup

/-- Cache TTL `CACHE_TTL = 60 * 60 * 24` seconds. -/
def CACHE_TTL : ℚ := 86400

/-- Error raised by a failing filesystem delete (`OSError`). -/
inductive FsError
  | osError
deriving DecidableEq, Repr

/-- Mutable state of the artifact cache: the in-memory index
`image_cache` (key to path) and the cache directory's files (path to
last-modified time). -/
structure CacheSt where
  cache : List (List Char × List Char)
  files : List (List Char × ℚ)
deriving DecidableEq, Repr

/-- One iteration of the `clean_cache` loop (`index.py` lines 33-37) on
snapshot entry `e`: when the entry's backing file is missing or older
than the TTL, pop the key from the index and, when the file exists,
delete it; a delete on which the oracle `rf` fails raises, freezing the
remaining iterations (the exception propagates). -/
def cleanEntry (rf : List Char → Bool) (now : ℚ)
    (acc : CacheSt × Option FsError) (e : List Char × List Char) :
    CacheSt × Option FsError :=
  match acc with
  | (st, some err) => (st, some err)
  | (st, none) =>
    match alookup e.2 st.files with
    | none => (⟨aerase e.1 st.cache, st.files⟩, none)
    | some m =>
      if CACHE_TTL < now - m then
        if rf e.2 then (⟨aerase e.1 st.cache, st.files⟩, some FsError.osError)
        else (⟨aerase e.1 st.cache, aerase e.2 st.files⟩, none)
      else (st, none)

/-- Cache eviction `clean_cache` of `index.py` lines 31-37: sweep a
snapshot of the index (`list(image_cache.items())`), popping and deleting
every entry whose file is missing or expired; a failing delete aborts the
sweep with the error. -/
def clean_cache (rf : List Char → Bool) (now : ℚ) (st : CacheSt) :
    CacheSt × Option FsError :=
  st.cache.foldl (cleanEntry rf now) (st, none)

/-- The cache directory `os.path.join(tempfile.gettempdir(), "flag_cache")`
(`index.py` line 13); the temporary-directory location is
platform-specific glue, modelled as this fixed path. -/
def cache_dir : List Char := "/tmp/flag_cache".toList

/-- The artifact path `os.path.join(cache_dir, f"{cache_key}.png")`. -/
def imagePath (key : List Char) : List Char :=
  cache_dir ++ '/' :: (key ++ ".png".toList)

/-- Outcome of the cache-lookup-or-render section: the path served and
whether it was a cache hit (`hit = false` means `create_vinayagar_card`
was invoked and the file freshly written). -/
structure PipeOutcome where
  path : List Char
  hit : Bool
deriving DecidableEq, Repr

/-- The cache section of the `/generate` handler (`index.py` lines
425-435), run on an already-validated name: sweep the cache, then serve
the stored path when the key is indexed and its file exists, and
otherwise render, write the file (its mtime becomes `now`) and record the
index entry.  An error escaping `clean_cache` aborts the section (the
route's generic handler turns it into an internal error). -/
def cachePipeline (rf : List Char → Bool) (now : ℚ) (name : List Char)
    (st : CacheSt) : Except FsError PipeOutcome × CacheSt :=
  match clean_cache rf now st with
  | (st1, some e) => (.error e, st1)
  | (st1, none) =>
    let key := get_cache_key name
    match alookup key st1.cache with
    | some p =>
      if (alookup p st1.files).isSome then (.ok ⟨p, true⟩, st1)
      else
        let path := imagePath key
        (.ok ⟨path, false⟩,
          ⟨ainsert key path st1.cache, ainsert path now st1.files⟩)
    | none =>
      let path := imagePath key
      (.ok ⟨path, false⟩,
        ⟨ainsert key path st1.cache, ainsert path now st1.files⟩)

theorem alookup_ainsert_self {α β : Type} [DecidableEq α] (k : α) (v : β)
    (l : List (α × β)) : alookup k (ainsert k v l) = some v := by
  induction l with
  | nil => simp [ainsert, alookup]
  | cons x rest ih =>
    obtain ⟨x1, x2⟩ := x
    by_cases h : x1 = k
    · simp [ainsert, h, alookup]
    · simp [ainsert, h, alookup, ih]

theorem alookup_aerase_ne {α β : Type} [DecidableEq α] {k k' : α}
    (h : k' ≠ k) (l : List (α × β)) :
    alookup k (aerase k' l) = alookup k l := by
  induction l with
  | nil => rfl
  | cons x rest ih =>
    obtain ⟨x1, x2⟩ := x
    by_cases hx : x1 = k'
    · subst hx
      simp [aerase, alookup, h]
    · simp only [aerase, if_neg hx, alookup]
      split
      · rfl
      · exact ih

theorem aerase_sublist {α β : Type} [DecidableEq α] (k : α)
    (l : List (α × β)) : (aerase k l).Sublist l := by
  induction l with
  | nil => simp [aerase]
  | cons x rest ih =>
    obtain ⟨x1, x2⟩ := x
    by_cases hx : x1 = k
    · simp only [aerase, if_pos hx]
      exact List.sublist_cons_self _ _
    · simp only [aerase, if_neg hx]
      exact ih.cons₂ _

theorem mem_of_mem_aerase {α β : Type} [DecidableEq α] {e : α × β} {k : α}
    {l : List (α × β)} (h : e ∈ aerase k l) : e ∈ l :=
  (aerase_sublist k l).subset h

theorem nodupKeys_aerase {α β : Type} [DecidableEq α] (k : α)
    {l : List (α × β)} (h : nodupKeys l) : nodupKeys (aerase k l) :=
  ((aerase_sublist k l).map Prod.fst).nodup h

theorem not_mem_aerase_self {α β : Type} [DecidableEq α] {k : α}
    {l : List (α × β)} (h : nodupKeys l) (v : β) : (k, v) ∉ aerase k l := by
  induction l with
  | nil => simp [aerase]
  | cons x rest ih =>
    obtain ⟨x1, x2⟩ := x
    obtain ⟨hx1, hrest⟩ := List.nodup_cons.mp h
    by_cases hx : x1 = k
    · subst hx
      rw [show aerase x1 ((x1, x2) :: rest) = rest by simp [aerase]]
      intro hm
      exact hx1 (List.mem_map.mpr ⟨(x1, v), hm, rfl⟩)
    · rw [show aerase k ((x1, x2) :: rest) = (x1, x2) :: aerase k rest by
        simp [aerase, hx]]
      intro hm
      rcases List.mem_cons.mp hm with hm | hm
      · exact hx (congrArg Prod.fst hm).symm
      · exact ih hrest hm

theorem alookup_eq_of_mem {α β : Type} [DecidableEq α] {l : List (α × β)}
    (h : nodupKeys l) {k : α} {v : β} (hm : (k, v) ∈ l) :
    alookup k l = some v := by
  induction l with
  | nil => simp at hm
  | cons x rest ih =>
    obtain ⟨x1, x2⟩ := x
    obtain ⟨hx1, hrest⟩ := List.nodup_cons.mp h
    rcases List.mem_cons.mp hm with hm | hm
    · injection hm with h1 h2
      subst h1
      subst h2
      simp [alookup]
    · have hknot : x1 ≠ k := by
        intro he
        subst he
        exact hx1 (List.mem_map.mpr ⟨(x1, v), hm, rfl⟩)
      rw [show alookup k ((x1, x2) :: rest) = alookup k rest by
        simp [alookup, hknot]]
      exact ih hrest hm

theorem mem_of_alookup_eq_some {α β : Type} [DecidableEq α]
    {l : List (α × β)} {k : α} {v : β} (h : alookup k l = some v) :
    (k, v) ∈ l := by
  induction l with
  | nil => simp [alookup] at h
  | cons x rest ih =>
    obtain ⟨x1, x2⟩ := x
    by_cases hx : x1 = k
    · subst hx
      rw [show alookup x1 ((x1, x2) :: rest) = some x2 by simp [alookup]] at h
      injection h with h
      subst h
      exact List.mem_cons_self _ _
    · rw [show alookup k ((x1, x2) :: rest) = alookup k rest by
        simp [alookup, hx]] at h
      exact List.mem_cons_of_mem _ (ih h)

theorem alookup_eq_none_iff {α β : Type} [DecidableEq α]
    {l : List (α × β)} {k : α} :
    alookup k l = none ↔ k ∉ l.map Prod.fst := by
  induction l with
  | nil => simp [alookup]
  | cons x rest ih =>
    obtain ⟨x1, x2⟩ := x
    by_cases hx : x1 = k
    · subst hx
      simp [alookup]
    · simp [alookup, hx, ih, Ne.symm hx]

theorem mem_keys_ainsert {α β : Type} [DecidableEq α] {a k : α} (v : β)
    (l : List (α × β)) :
    a ∈ (ainsert k v l).map Prod.fst ↔ a = k ∨ a ∈ l.map Prod.fst := by
  induction l with
  | nil => simp [ainsert]
  | cons x rest ih =>
    obtain ⟨x1, x2⟩ := x
    by_cases hx : x1 = k
    · subst hx
      rw [show ainsert x1 v ((x1, x2) :: rest) = (x1, v) :: rest by
        simp [ainsert]]
      simp
    · rw [show ainsert k v ((x1, x2) :: rest) = (x1, x2) :: ainsert k v rest by
        simp [ainsert, hx]]
      simp only [List.map_cons, List.mem_cons, ih]
      tauto

theorem nodupKeys_ainsert {α β : Type} [DecidableEq α] (k : α) (v : β)
    {l : List (α × β)} (h : nodupKeys l) : nodupKeys (ainsert k v l) := by
  induction l with
  | nil => simp [ainsert, nodupKeys]
  | cons x rest ih =>
    obtain ⟨x1, x2⟩ := x
    obtain ⟨hx1, hrest⟩ := List.nodup_cons.mp h
    by_cases hx : x1 = k
    · subst hx
      rw [show ainsert x1 v ((x1, x2) :: rest) = (x1, v) :: rest by
        simp [ainsert]]
      exact List.nodup_cons.mpr ⟨hx1, hrest⟩
    · rw [show ainsert k v ((x1, x2) :: rest) = (x1, x2) :: ainsert k v rest by
        simp [ainsert, hx]]
      refine List.nodup_cons.mpr ⟨?_, ih hrest⟩
      rw [mem_keys_ainsert]
      rintro (he | he)
      · exact hx he
      · exact hx1 he

/-- Freshness of a cached file at sweep time: the file exists and its age
is within the TTL. -/
def FreshAt (now : ℚ) (files : List (List Char × ℚ)) (p : List Char) : Prop :=
  ∃ m, alookup p files = some m ∧ ¬ CACHE_TTL < now - m

/-- Once a delete has raised, the rest of the sweep never runs. -/
theorem cleanFold_frozen (rf : List Char → Bool) (now : ℚ)
    (entries : List (List Char × List Char)) (st : CacheSt) (e : FsError) :
    entries.foldl (cleanEntry rf now) (st, some e) = (st, some e) := by
  induction entries with
  | nil => rfl
  | cons x rest ih => exact ih

theorem cleanEntry_cache_sublist (rf : List Char → Bool) (now : ℚ)
    (acc : CacheSt × Option FsError) (e : List Char × List Char) :
    ((cleanEntry rf now acc e).1.cache).Sublist acc.1.cache := by
  obtain ⟨st, err⟩ := acc
  cases err with
  | some e0 => exact List.Sublist.refl _
  | none =>
    simp only [cleanEntry]
    cases hl : alookup e.2 st.files with
    | none => exact aerase_sublist _ _
    | some m =>
      by_cases hexp : CACHE_TTL < now - m
      · by_cases hrf : rf e.2 <;> simp [hexp, hrf] <;> exact aerase_sublist _ _
      · simp [hexp]

theorem cleanEntry_files_sublist (rf : List Char → Bool) (now : ℚ)
    (acc : CacheSt × Option FsError) (e : List Char × List Char) :
    ((cleanEntry rf now acc e).1.files).Sublist acc.1.files := by
  obtain ⟨st, err⟩ := acc
  cases err with
  | some e0 => exact List.Sublist.refl _
  | none =>
    simp only [cleanEntry]
    cases hl : alookup e.2 st.files with
    | none => exact List.Sublist.refl _
    | some m =>
      by_cases hexp : CACHE_TTL < now - m
      · by_cases hrf : rf e.2 <;> simp [hexp, hrf]
        exact aerase_sublist _ _
      · simp [hexp]

theorem cleanFold_cache_sublist (rf : List Char → Bool) (now : ℚ) :
    ∀ (entries : List (List Char × List Char)) (acc : CacheSt × Option FsError),
      ((entries.foldl (cleanEntry rf now) acc).1.cache).Sublist acc.1.cache := by
  intro entries
  induction entries with
  | nil => intro acc; exact List.Sublist.refl _
  | cons e rest ih =>
    intro acc
    exact (ih (cleanEntry rf now acc e)).trans (cleanEntry_cache_sublist rf now acc e)

theorem cleanFold_files_sublist (rf : List Char → Bool) (now : ℚ) :
    ∀ (entries : List (List Char × List Char)) (acc : CacheSt × Option FsError),
      ((entries.foldl (cleanEntry rf now) acc).1.files).Sublist acc.1.files := by
  intro entries
  induction entries with
  | nil => intro acc; exact List.Sublist.refl _
  | cons e rest ih =>
    intro acc
    exact (ih (cleanEntry rf now acc e)).trans (cleanEntry_files_sublist rf now acc e)

/-- A file that is fresh at sweep time survives one sweep iteration with
its modification time intact. -/
theorem cleanEntry_preserves_file (rf : List Char → Bool) (now : ℚ)
    {p : List Char} {m : ℚ} (hfresh : ¬ CACHE_TTL < now - m)
    (acc : CacheSt × Option FsError) (e : List Char × List Char)
    (h : alookup p acc.1.files = some m) :
    alookup p (cleanEntry rf now acc e).1.files = some m := by
  obtain ⟨st, err⟩ := acc
  cases err with
  | some e0 => exact h
  | none =>
    simp only [cleanEntry]
    cases hl : alookup e.2 st.files with
    | none => exact h
    | some m' =>
      by_cases hexp : CACHE_TTL < now - m'
      · by_cases hrf : rf e.2
        · simp only [hexp, if_pos, hrf, if_true]
          exact h
        · simp only [hexp, if_pos, hrf, if_false, Bool.false_eq_true]
          have hne : e.2 ≠ p := by
            intro hpe
            rw [hpe, h] at hl
            injection hl with hm
            rw [← hm] at hexp
            exact hfresh hexp
          rw [alookup_aerase_ne hne]
          exact h
      · simp only [if_neg hexp]
        exact h

theorem cleanFold_preserves_file (rf : List Char → Bool) (now : ℚ)
    {p : List Char} {m : ℚ} (hfresh : ¬ CACHE_TTL < now - m) :
    ∀ (entries : List (List Char × List Char)) (acc : CacheSt × Option FsError),
      alookup p acc.1.files = some m →
      alookup p (entries.foldl (cleanEntry rf now) acc).1.files = some m := by
  intro entries
  induction entries with
  | nil => intro acc h; exact h
  | cons e rest ih =>
    intro acc h
    exact ih _ (cleanEntry_preserves_file rf now hfresh acc e h)

/-- An index entry whose file is fresh survives one sweep iteration,
provided the snapshot maps its key to the same path. -/
theorem cleanEntry_keeps_entry (rf : List Char → Bool) (now : ℚ)
    {k p : List Char} {m : ℚ} (hfresh : ¬ CACHE_TTL < now - m)
    (acc : CacheSt × Option FsError) (e : List Char × List Char)
    (hsnap : e.1 = k → e.2 = p)
    (hc : alookup k acc.1.cache = some p)
    (hf : alookup p acc.1.files = some m) :
    alookup k (cleanEntry rf now acc e).1.cache = some p := by
  obtain ⟨st, err⟩ := acc
  cases err with
  | some e0 => exact hc
  | none =>
    simp only [cleanEntry]
    cases hl : alookup e.2 st.files with
    | none =>
      have hne : e.1 ≠ k := by
        intro he
        rw [hsnap he, hf] at hl
        exact Option.noConfusion hl
      rw [alookup_aerase_ne hne]
      exact hc
    | some m' =>
      by_cases hexp : CACHE_TTL < now - m'
      · have hne : e.1 ≠ k := by
          intro he
          rw [hsnap he, hf] at hl
          injection hl with hm
          rw [← hm] at hexp
          exact hfresh hexp
        by_cases hrf : rf e.2
        · simp only [hexp, if_pos, hrf, if_true]
          rw [alookup_aerase_ne hne]
          exact hc
        · simp only [hexp, if_pos, hrf, if_false, Bool.false_eq_true]
          rw [alookup_aerase_ne hne]
          exact hc
      · simp only [if_neg hexp]
        exact hc

theorem cleanFold_keeps_entry (rf : List Char → Bool) (now : ℚ)
    {k p : List Char} {m : ℚ} (hfresh : ¬ CACHE_TTL < now - m) :
    ∀ (entries : List (List Char × List Char)) (acc : CacheSt × Option FsError),
      (∀ e ∈ entries, e.1 = k → e.2 = p) →
      alookup k acc.1.cache = some p →
      alookup p acc.1.files = some m →
      alookup k (entries.foldl (cleanEntry rf now) acc).1.cache = some p := by
  intro entries
  induction entries with
  | nil => intro acc _ hc _; exact hc
  | cons e rest ih =>
    intro acc hsnap hc hf
    exact ih _ (fun x hx => hsnap x (List.mem_cons_of_mem e hx))
      (cleanEntry_keeps_entry rf now hfresh acc e
        (hsnap e (List.mem_cons_self e rest)) hc hf)
      (cleanEntry_preserves_file rf now hfresh acc e hf)

/-- Survivors of a completed sweep are fresh: every index entry left
after the fold has an existing backing file within the TTL. -/
theorem cleanFold_post (rf : List Char → Bool) (now : ℚ) :
    ∀ (entries : List (List Char × List Char)) (st : CacheSt),
      nodupKeys st.cache →
      (∀ e ∈ st.cache, e ∈ entries ∨ FreshAt now st.files e.2) →
      ∀ st', entries.foldl (cleanEntry rf now) (st, none) = (st', none) →
        ∀ e ∈ st'.cache, FreshAt now st'.files e.2 := by
  intro entries
  induction entries with
  | nil =>
    intro st hnd hmem st' hres e he
    injection hres with h1 h2
    subst h1
    rcases hmem e he with hm | hm
    · simp at hm
    · exact hm
  | cons e0 rest ih =>
    intro st hnd hmem st' hres e he
    rw [List.foldl_cons] at hres
    rcases hstep : cleanEntry rf now (st, none) e0 with ⟨st1, err1⟩
    rw [hstep] at hres
    cases err1 with
    | some e1 =>
      rw [cleanFold_frozen] at hres
      injection hres with h1 h2
      exact Option.noConfusion h2
    | none =>
      revert hstep
      simp only [cleanEntry]
      cases hl : alookup e0.2 st.files with
      | none =>
        intro hstep
        injection hstep with h1 h2
        subst h1
        refine ih ⟨aerase e0.1 st.cache, st.files⟩ (nodupKeys_aerase _ hnd)
          ?_ st' hres e he
        intro x hx
        have hxc : x ∈ st.cache := mem_of_mem_aerase hx
        rcases hmem x hxc with hm | hm
        · rcases List.mem_cons.mp hm with hm | hm
          · subst hm
            exact absurd hx (not_mem_aerase_self hnd x.2)
          · exact Or.inl hm
        · exact Or.inr hm
      | some m =>
        by_cases hexp : CACHE_TTL < now - m
        · by_cases hrf : rf e0.2
          · intro hstep
            dsimp only at hstep
            rw [if_pos hexp, if_pos hrf] at hstep
            injection hstep with h1 h2
            exact Option.noConfusion h2
          · intro hstep
            dsimp only at hstep
            rw [if_pos hexp, if_neg (by simp [hrf])] at hstep
            injection hstep with h1 h2
            subst h1
            refine ih ⟨aerase e0.1 st.cache, aerase e0.2 st.files⟩
              (nodupKeys_aerase _ hnd) ?_ st' hres e he
            intro x hx
            have hxc : x ∈ st.cache := mem_of_mem_aerase hx
            rcases hmem x hxc with hm | hm
            · rcases List.mem_cons.mp hm with hm | hm
              · subst hm
                exact absurd hx (not_mem_aerase_self hnd x.2)
              · exact Or.inl hm
            · obtain ⟨m2, hm2, hfr2⟩ := hm
              right
              have hne : e0.2 ≠ x.2 := by
                intro hpe
                rw [hpe, hm2] at hl
                injection hl with hml
                rw [← hml] at hexp
                exact hfr2 hexp
              exact ⟨m2, by rw [alookup_aerase_ne hne]; exact hm2, hfr2⟩
        · intro hstep
          dsimp only at hstep
          rw [if_neg hexp] at hstep
          injection hstep with h1 h2
          subst h1
          refine ih st hnd ?_ st' hres e he
          intro x hx
          rcases hmem x hx with hm | hm
          · rcases List.mem_cons.mp hm with hm | hm
            · subst hm
              exact Or.inr ⟨m, hl, hexp⟩
            · exact Or.inl hm
          · exact Or.inr hm

/-- After a completed `clean_cache` sweep, every surviving index entry
points at an existing file within the TTL. -/
theorem clean_cache_post (rf : List Char → Bool) (now : ℚ) (st st' : CacheSt)
    (hnd : nodupKeys st.cache) (hres : clean_cache rf now st = (st', none)) :
    ∀ e ∈ st'.cache, FreshAt now st'.files e.2 :=
  cleanFold_post rf now st.cache st hnd (fun _ he => Or.inl he) st' hres

theorem cleanEntry_err_none (rf : List Char → Bool) (now : ℚ)
    (st : CacheSt) (e : List Char × List Char)
    (hrf : ∀ qv ∈ st.files, rf qv.1 = false) :
    (cleanEntry rf now (st, none) e).2 = none := by
  simp only [cleanEntry]
  cases hl : alookup e.2 st.files with
  | none => rfl
  | some m =>
    by_cases hexp : CACHE_TTL < now - m
    · have hrf2 : rf e.2 = false := hrf (e.2, m) (mem_of_alookup_eq_some hl)
      simp [hexp, hrf2]
    · simp [hexp]

/-- A sweep in which no existing file's delete fails completes without
error. -/
theorem cleanFold_err_none (rf : List Char → Bool) (now : ℚ) :
    ∀ (entries : List (List Char × List Char)) (acc : CacheSt × Option FsError),
      (∀ qv ∈ acc.1.files, rf qv.1 = false) → acc.2 = none →
      (entries.foldl (cleanEntry rf now) acc).2 = none := by
  intro entries
  induction entries with
  | nil => intro acc _ h; exact h
  | cons e rest ih =>
    intro acc hrf hacc
    obtain ⟨st, err⟩ := acc
    cases err with
    | some e1 => exact Option.noConfusion hacc
    | none =>
      rw [List.foldl_cons]
      rcases hstep : cleanEntry rf now (st, none) e with ⟨st1, err1⟩
      have herr : err1 = none := by
        have := cleanEntry_err_none rf now st e hrf
        rw [hstep] at this
        exact this
      subst herr
      refine ih (st1, none) ?_ rfl
      intro qv hqv
      refine hrf qv ?_
      have hsub := cleanEntry_files_sublist rf now (st, none) e
      rw [hstep] at hsub
      exact hsub.subset hqv

/-- The no-failure delete oracle: every `os.remove` succeeds. -/
def noFsFail : List Char → Bool := fun _ => false

/-- After a successful run of the cache section, the key is indexed at
the served path and the served path's file exists. -/
theorem cachePipeline_post (rf : List Char → Bool) (now : ℚ)
    (name : List Char) (st : CacheSt) (r : PipeOutcome) (st' : CacheSt)
    (h : cachePipeline rf now name st = (.ok r, st')) :
    alookup (get_cache_key name) st'.cache = some r.path ∧
    ∃ m, alookup r.path st'.files = some m := by
  rcases hcl : clean_cache rf now st with ⟨st1, err⟩
  cases err with
  | some e =>
    simp only [cachePipeline, hcl] at h
    injection h with h1 h2
    exact Except.noConfusion h1
  | none =>
    simp only [cachePipeline, hcl] at h
    rcases hlk : alookup (get_cache_key name) st1.cache with _ | p
    · rw [hlk] at h
      simp only at h
      injection h with h1 h2
      injection h1 with h1
      subst h2
      rw [← h1]
      exact ⟨alookup_ainsert_self _ _ _, now, alookup_ainsert_self _ _ _⟩
    · rw [hlk] at h
      simp only at h
      by_cases hex : (alookup p st1.files).isSome = true
      · rw [if_pos hex] at h
        injection h with h1 h2
        injection h1 with h1
        subst h2
        rw [← h1]
        exact ⟨hlk, Option.isSome_iff_exists.mp hex⟩
      · rw [if_neg hex] at h
        injection h with h1 h2
        injection h1 with h1
        subst h2
        rw [← h1]
        exact ⟨alookup_ainsert_self _ _ _, now, alookup_ainsert_self _ _ _⟩

/-- The cache section preserves key uniqueness of the index. -/
theorem cachePipeline_nodup (rf : List Char → Bool) (now : ℚ)
    (name : List Char) (st : CacheSt) (r : Except FsError PipeOutcome)
    (st' : CacheSt) (h : cachePipeline rf now name st = (r, st'))
    (hc : nodupKeys st.cache) : nodupKeys st'.cache := by
  rcases hcl : clean_cache rf now st with ⟨st1, err⟩
  have hnd1 : nodupKeys st1.cache := by
    have hsub := cleanFold_cache_sublist rf now st.cache (st, none)
    rw [show st.cache.foldl (cleanEntry rf now) (st, none) = (st1, err) from hcl]
      at hsub
    exact (hsub.map Prod.fst).nodup hc
  cases err with
  | some e =>
    simp only [cachePipeline, hcl] at h
    injection h with h1 h2
    rw [← h2]
    exact hnd1
  | none =>
    simp only [cachePipeline, hcl] at h
    rcases hlk : alookup (get_cache_key name) st1.cache with _ | p
    · rw [hlk] at h
      simp only at h
      injection h with h1 h2
      rw [← h2]
      exact nodupKeys_ainsert _ _ hnd1
    · rw [hlk] at h
      simp only at h
      by_cases hex : (alookup p st1.files).isSome = true
      · rw [if_pos hex] at h
        injection h with h1 h2
        rw [← h2]
        exact hnd1
      · rw [if_neg hex] at h
        injection h with h1 h2
        rw [← h2]
        exact nodupKeys_ainsert _ _ hnd1

/-- C5: cache idempotence.  If a run of the cache section at time `now₁`
for a name succeeds (from any index without duplicate keys), and by the
time `now₂` of a second run for the same name the stored file has not
passed its TTL (and no filesystem deletion failed or intervened), then
the second run is a cache hit: it finds the key in the index with the
backing file present, serves the same stored path, and does not invoke
the renderer (`hit = true`). -/
theorem C5_cache_idempotent (now₁ now₂ : ℚ) (name : List Char)
    (st : CacheSt) (hc : nodupKeys st.cache)
    (r₁ : PipeOutcome) (st₁ : CacheSt)
    (h1 : cachePipeline noFsFail now₁ name st = (.ok r₁, st₁))
    (hfresh : ∀ m, alookup r₁.path st₁.files = some m →
      ¬ CACHE_TTL < now₂ - m) :
    (cachePipeline noFsFail now₂ name st₁).1 = .ok ⟨r₁.path, true⟩ := by
  obtain ⟨hkey, m, hm⟩ := cachePipeline_post noFsFail now₁ name st r₁ st₁ h1
  have hnd1 : nodupKeys st₁.cache :=
    cachePipeline_nodup noFsFail now₁ name st (.ok r₁) st₁ h1 hc
  have hfr : ¬ CACHE_TTL < now₂ - m := hfresh m hm
  rcases hcl₂ : clean_cache noFsFail now₂ st₁ with ⟨st₂, err₂⟩
  have herr : err₂ = none := by
    have := cleanFold_err_none noFsFail now₂ st₁.cache (st₁, none)
      (fun qv _ => rfl) rfl
    rw [show st₁.cache.foldl (cleanEntry noFsFail now₂) (st₁, none) =
      (st₂, err₂) from hcl₂] at this
    exact this
  subst herr
  have hkey₂ : alookup (get_cache_key name) st₂.cache = some r₁.path := by
    have := cleanFold_keeps_entry noFsFail now₂ hfr st₁.cache (st₁, none)
      (fun e he h1e => by
        have hle := alookup_eq_of_mem hnd1 (show (e.1, e.2) ∈ st₁.cache from he)
        rw [h1e, hkey] at hle
        exact (Option.some.inj hle).symm)
      hkey hm
    rw [show st₁.cache.foldl (cleanEntry noFsFail now₂) (st₁, none) =
      (st₂, none) from hcl₂] at this
    exact this
  have hfile₂ : alookup r₁.path st₂.files = some m := by
    have := cleanFold_preserves_file noFsFail now₂ hfr st₁.cache (st₁, none) hm
    rw [show st₁.cache.foldl (cleanEntry noFsFail now₂) (st₁, none) =
      (st₂, none) from hcl₂] at this
    exact this
  simp only [cachePipeline, hcl₂, hkey₂]
  rw [if_pos (by rw [hfile₂]; rfl)]

/-- C5 witness: rendering `"Kumar"` from an empty cache at time 0 and
again at time 1 yields a hit on the stored path the second time. -/
theorem C5_cache_idempotent_witness :
    (cachePipeline noFsFail 1 "Kumar".toList
      ⟨[(get_cache_key "Kumar".toList, imagePath (get_cache_key "Kumar".toList))],
       [(imagePath (get_cache_key "Kumar".toList), 0)]⟩).1 =
      .ok ⟨imagePath (get_cache_key "Kumar".toList), true⟩ := by
  have h1 : cachePipeline noFsFail 0 "Kumar".toList ⟨[], []⟩ =
      (.ok ⟨imagePath (get_cache_key "Kumar".toList), false⟩,
       ⟨[(get_cache_key "Kumar".toList, imagePath (get_cache_key "Kumar".toList))],
        [(imagePath (get_cache_key "Kumar".toList), 0)]⟩) := by
    simp [cachePipeline, clean_cache, ainsert, alookup]
  refine C5_cache_idempotent 0 1 "Kumar".toList ⟨[], []⟩ ?_ _ _ h1 ?_
  · simp [nodupKeys]
  · intro m hm
    rw [show alookup (imagePath (get_cache_key "Kumar".toList))
      [(imagePath (get_cache_key "Kumar".toList), (0 : ℚ))] = some 0 by
        simp [alookup]] at hm
    injection hm with hm
    rw [← hm]
    norm_num [CACHE_TTL]

/-- A cache-index entry that is absent, whose backing file is missing, or
whose backing file has outlived the TTL. -/
def StaleEntry (st : CacheSt) (now : ℚ) (key : List Char) : Prop :=
  alookup key st.cache = none ∨
    ∃ p, alookup key st.cache = some p ∧
      (alookup p st.files = none ∨
        ∃ m, alookup p st.files = some m ∧ CACHE_TTL < now - m)

/-- C6: the sweep runs before every lookup, so a successful cache hit
never serves a stale artifact: the served path's backing file exists in
the post-sweep state and its age is within the 24-hour TTL.  Conversely a
key whose entry is absent, file-missing, or expired is treated as a miss
and triggers a fresh render at the canonical path. -/
theorem C6_no_expired_served (rf : List Char → Bool) (now : ℚ)
    (name : List Char) (st : CacheSt)
    (hc : nodupKeys st.cache) (hf : nodupKeys st.files) :
    (∀ r st', cachePipeline rf now name st = (.ok r, st') → r.hit = true →
      FreshAt now st'.files r.path) ∧
    (StaleEntry st now (get_cache_key name) →
      ∀ r st', cachePipeline rf now name st = (.ok r, st') →
        r.hit = false ∧ r.path = imagePath (get_cache_key name)) := by
  rcases hcl : clean_cache rf now st with ⟨st1, err⟩
  have hfsub : st1.files.Sublist st.files := by
    have hsub := cleanFold_files_sublist rf now st.cache (st, none)
    rw [show st.cache.foldl (cleanEntry rf now) (st, none) = (st1, err) from hcl]
      at hsub
    exact hsub
  have hcsub : st1.cache.Sublist st.cache := by
    have hsub := cleanFold_cache_sublist rf now st.cache (st, none)
    rw [show st.cache.foldl (cleanEntry rf now) (st, none) = (st1, err) from hcl]
      at hsub
    exact hsub
  constructor
  · intro r st' h hhit
    cases err with
    | some e =>
      simp only [cachePipeline, hcl] at h
      injection h with h1 h2
      exact Except.noConfusion h1
    | none =>
      simp only [cachePipeline, hcl] at h
      rcases hlk : alookup (get_cache_key name) st1.cache with _ | p
      · rw [hlk] at h
        simp only at h
        injection h with h1 h2
        injection h1 with h1
        rw [← h1] at hhit
        exact absurd hhit (by simp)
      · rw [hlk] at h
        simp only at h
        by_cases hex : (alookup p st1.files).isSome = true
        · rw [if_pos hex] at h
          injection h with h1 h2
          injection h1 with h1
          subst h2
          rw [← h1]
          exact clean_cache_post rf now st st1 hc hcl
            (get_cache_key name, p) (mem_of_alookup_eq_some hlk)
        · rw [if_neg hex] at h
          injection h with h1 h2
          injection h1 with h1
          rw [← h1] at hhit
          exact absurd hhit (by simp)
  · intro hstale r st' h
    cases err with
    | some e =>
      simp only [cachePipeline, hcl] at h
      injection h with h1 h2
      exact Except.noConfusion h1
    | none =>
      simp only [cachePipeline, hcl] at h
      rcases hlk : alookup (get_cache_key name) st1.cache with _ | p
      · rw [hlk] at h
        simp only at h
        injection h with h1 h2
        injection h1 with h1
        rw [← h1]
        exact ⟨rfl, rfl⟩
      · -- the surviving entry's original value and freshness force a
        -- contradiction with staleness unless the file check fails
        have hmem1 : (get_cache_key name, p) ∈ st.cache :=
          hcsub.subset (mem_of_alookup_eq_some hlk)

        have hlk0 : alookup (get_cache_key name) st.cache = some p :=
          alookup_eq_of_mem hc hmem1
        have hex : ¬ (alookup p st1.files).isSome = true := by
          intro hex
          obtain ⟨m', hm'⟩ := Option.isSome_iff_exists.mp hex
          have hmem' : (p, m') ∈ st.files := hfsub.subset (mem_of_alookup_eq_some hm')
          have hm0 : alookup p st.files = some m' := alookup_eq_of_mem hf hmem'
          have hfr : FreshAt now st1.files p :=
            clean_cache_post rf now st st1 hc hcl (get_cache_key name, p)
              (mem_of_alookup_eq_some hlk)
          obtain ⟨m2, hm2, hfr2⟩ := hfr
          have hmem2 : (p, m2) ∈ st.files := hfsub.subset (mem_of_alookup_eq_some hm2)
          have hm02 : alookup p st.files = some m2 := alookup_eq_of_mem hf hmem2
          rcases hstale with hst | ⟨p', hp', hst⟩
          · rw [hlk0] at hst
            exact Option.noConfusion hst
          · rw [hlk0] at hp'
            obtain hp' := Option.some.inj hp'
            subst hp'
            rcases hst with hst | ⟨m3, hm3, hst⟩
            · rw [hm0] at hst
              exact Option.noConfusion hst
            · rw [hm02] at hm3
              obtain hm3 := Option.some.inj hm3
              rw [← hm3] at hst
              exact hfr2 hst
        rw [hlk] at h
        simp only at h
        rw [if_neg hex] at h
        injection h with h1 h2
        injection h1 with h1
        rw [← h1]
        exact ⟨rfl, rfl⟩

/-- C6 witness: from an empty cache (a stale/absent entry), the run for
`"Kumar"` is a miss that renders to the canonical path. -/
theorem C6_no_expired_served_witness :
    (⟨imagePath (get_cache_key "Kumar".toList), false⟩ : PipeOutcome).hit = false ∧
    (⟨imagePath (get_cache_key "Kumar".toList), false⟩ : PipeOutcome).path =
      imagePath (get_cache_key "Kumar".toList) := by
  have hrun : cachePipeline noFsFail 0 "Kumar".toList ⟨[], []⟩ =
      (.ok ⟨imagePath (get_cache_key "Kumar".toList), false⟩,
       ⟨[(get_cache_key "Kumar".toList, imagePath (get_cache_key "Kumar".toList))],
        [(imagePath (get_cache_key "Kumar".toList), 0)]⟩) := by
    simp [cachePipeline, clean_cache, ainsert, alookup]
  exact (C6_no_expired_served noFsFail 0 "Kumar".toList ⟨[], []⟩
    (by simp [nodupKeys]) (by simp [nodupKeys])).2 (Or.inl rfl) _ _ hrun

/-- C7 counterexample: `clean_cache` has no exception handler around
`os.remove`, so a filesystem error while deleting an expired entry's
existing backing file is not swallowed: at the state with index
`{"k": "p"}`, file `"p"` of age 86401 seconds, and a delete oracle that
fails on every path, the sweep aborts with the error instead of
completing. -/
theorem C7_counterexample :
    (clean_cache (fun _ => true) 86401
      ⟨[("k".toList, "p".toList)], [("p".toList, 0)]⟩).2 =
      some FsError.osError := by
  have hstep : cleanEntry (fun _ => true) 86401
      ((⟨[("k".toList, "p".toList)], [("p".toList, 0)]⟩ : CacheSt), none)
      ("k".toList, "p".toList) =
      (⟨[], [("p".toList, 0)]⟩, some FsError.osError) := by
    simp only [cleanEntry]
    rw [show alookup ("k".toList, "p".toList).2
      [("p".toList, (0 : ℚ))] = some 0 by simp [alookup]]
    dsimp only
    rw [if_pos (by norm_num [CACHE_TTL])]
    simp [aerase]
  unfold clean_cache
  dsimp only
  rw [List.foldl_cons, hstep, cleanFold_frozen]

/-- C7 (amended): `os.remove` is only ever attempted after an existence
check, so when no existing file's delete fails the sweep completes with
no error (in particular, an already-missing backing file never raises);
but an actual filesystem error raised by the delete propagates out of
`clean_cache` to its caller, aborting the sweep. -/
theorem C7_delete_failure (rf : List Char → Bool) (now : ℚ) (st : CacheSt) :
    ((∀ qv ∈ st.files, rf qv.1 = false) → (clean_cache rf now st).2 = none) ∧
    (∀ k p m rest restf,
      st.cache = (k, p) :: rest → st.files = (p, m) :: restf →
      CACHE_TTL < now - m → rf p = true →
      (clean_cache rf now st).2 = some FsError.osError) := by
  constructor
  · intro hrf
    exact cleanFold_err_none rf now st.cache (st, none) hrf rfl
  · intro k p m rest restf hcache hfiles hexp hrf
    have hstep : cleanEntry rf now (st, none) (k, p) =
        (⟨aerase k st.cache, st.files⟩, some FsError.osError) := by
      simp only [cleanEntry]
      rw [show alookup (k, p).2 st.files = some m by rw [hfiles]; simp [alookup]]
      dsimp only
      rw [if_pos hexp, if_pos hrf]
    unfold clean_cache
    rw [hcache, List.foldl_cons, hstep, cleanFold_frozen]

/-- C7 witness: with no failing deletes a sweep completes; with an
expired entry whose existing file fails to delete, the sweep aborts. -/
theorem C7_delete_failure_witness :
    (clean_cache (fun _ => false) 0
      ⟨[("x".toList, "y".toList)], [("y".toList, 0)]⟩).2 = none ∧
    (clean_cache (fun _ => true) 86401
      ⟨[("a".toList, "b".toList)], [("b".toList, 0)]⟩).2 =
      some FsError.osError := by
  constructor
  · exact (C7_delete_failure (fun _ => false) 0 _).1 (fun qv _ => rfl)
  · exact (C7_delete_failure (fun _ => true) 86401 _).2 "a".toList "b".toList 0
      [] [] rfl rfl (by norm_num [CACHE_TTL]) rfl

/-!
Card renderer, from `vinayagar.py`.  PIL (`Image`, `ImageDraw`,
`ImageFont`) is an external collaborator: its drawing primitives are
modelled as constructors of an operation list, so a rendered image is the
canvas metadata plus the exact sequence of primitive calls the source
issues.  Asset availability (font download, twemoji icons, the central
`vinayagar.png` artwork) and font metrics (`draw.textsize`) form an
explicit environment.  Python evaluates the few fractional constants in
binary floating point; the model uses exact integer floors, which agree
with the float results for every value these constants actually take on
the fixed 1080-pixel canvas (checked exhaustively for the gradient and
the glow; for `new_h` the two can differ by one pixel for some asset
aspect ratios, which none of the proved properties depend on). -/

/-- Canvas constants `WIDTH, HEIGHT = 1080, 1080`. -/
def WIDTH : Nat := 1080

/-- Canvas height. -/
def HEIGHT : Nat := 1080

/-- Footer band height `FOOTER_HEIGHT = 150`. -/
def FOOTER_HEIGHT : Nat := 150

/-- Local icon filename constants of `vinayagar.py`. -/
def HEADER_EMOJI : List Char := "twemoji_lamp.png".toList

/-- Footer sparkle icon filename. -/
def FOOTER_EMOJI : List Char := "twemoji_sparkle.png".toList

/-- A font handle: the downloaded HindMadurai-Bold at a pixel size
(`ImageFont.truetype`), or PIL's built-in default
(`ImageFont.load_default`). -/
inductive Font
  | hindMadurai (size : Nat)
  | builtinDefault
deriving DecidableEq, Repr

/-- Rendering environment: which external assets are available, the
central artwork's pixel dimensions, and the font metric
`draw.textsize`.  Holding this fixed corresponds to holding the artwork
and font assets fixed. -/
structure RenderEnv where
  fontAvailable : Bool
  iconAvailable : List Char → Bool
  ganeshAvailable : Bool
  ganeshW : Nat
  ganeshH : Nat
  textSize : Font → List Char → Nat × Nat

/-- One PIL drawing primitive invoked by the renderer. -/
inductive DrawOp
  | line (x0 y0 x1 y1 : Int) (r g b : Nat)
  | text (x y : Int) (s : List Char) (f : Font) (color : List Char)
  | pasteIcon (path : List Char) (x y : Int) (size : Nat)
  | glowEllipse (x0 y0 x1 y1 : Int) (r g b a : Nat)
  | pasteGanesh (x y : Int) (w h : Nat)
deriving DecidableEq, Repr

/-- The rendered artifact: canvas metadata plus the ordered primitive
calls. -/
structure RenderedImage where
  width : Nat
  height : Nat
  mode : List Char
  ops : List DrawOp
deriving DecidableEq, Repr

/-- Font selection of `create_vinayagar_card` lines 127-129:
`ImageFont.truetype(font_path, size) if font_path else
ImageFont.load_default()`; `get_font_path` returns the empty string when
the font is unavailable. -/
def pickFont (env : RenderEnv) (size : Nat) : Font :=
  if env.fontAvailable then Font.hindMadurai size else Font.builtinDefault

/-- Offsets `(dx, dy)` with `dx, dy` ranging over `-ow ... ow`. -/
def intRange (ow : Nat) : List Int :=
  (List.range (2 * ow + 1)).map (fun i => (i : Int) - (ow : Int))

/-- All outline stamp offsets in loop order. -/
def outlineOffsets (ow : Nat) : List (Int × Int) :=
  ((intRange ow).map (fun dx => (intRange ow).map (fun dy => (dx, dy)))).flatten

/-- Outlined text (`draw_text_with_outline`, `vinayagar.py` lines 61-67):
stamp the glyphs at every nonzero offset within the radius in the outline
color, then the un-offset glyphs in the fill color. -/
def draw_text_with_outline (pos : Int × Int) (text : List Char) (f : Font)
    (fill outline : List Char) (ow : Nat) : List DrawOp :=
  ((outlineOffsets ow).filter (fun d => !(d.1 == 0 && d.2 == 0))).map
      (fun d => DrawOp.text (pos.1 + d.1) (pos.2 + d.2) text f outline) ++
    [DrawOp.text pos.1 pos.2 text f fill]

/-- Icon paste (`paste_icon`, `vinayagar.py` lines 70-76): open, resize
and paste the icon; any failure (the asset being unavailable) is caught
and the overlay skipped. -/
def paste_icon (env : RenderEnv) (iconPath : List Char) (x y : Int)
    (size : Nat) : List DrawOp :=
  if env.iconAvailable iconPath then [DrawOp.pasteIcon iconPath x y size]
  else []

/-- Glow radii `range(max_radius, 0, -10)`. -/
def glowRadii (maxR : Nat) : List Nat :=
  (List.range ((maxR + 9) / 10)).map (fun i => maxR - 10 * i)

/-- Radial glow (`add_radial_glow`, `vinayagar.py` lines 79-91):
concentric golden circles of decreasing radius and alpha
`max(0, 255 - int(180 * r / max_radius))`. -/
def add_radial_glow (cx cy : Int) (maxR : Nat) : List DrawOp :=
  (glowRadii maxR).map (fun r =>
    let alpha := (180 * r) / maxR
    DrawOp.glowEllipse (cx - (r : Int)) (cy - (r : Int)) (cx + (r : Int))
      (cy + (r : Int)) 255 223 128 (255 - alpha))

/-- Central artwork placement (`place_ganesh_image`, `vinayagar.py` lines
94-109): open `vinayagar.png`, scale to `int(WIDTH * 0.35) = 378` pixels
wide preserving aspect ratio, draw the glow of radius
`int(new_w * 0.7) = 264`, paste centered; when opening the artwork fails
the whole `try` body — glow included — is skipped. -/
def place_ganesh_image (env : RenderEnv) (cx cy : Int) : List DrawOp :=
  if env.ganeshAvailable then
    let newW : Nat := WIDTH * 35 / 100
    let newH : Nat := newW * env.ganeshH / env.ganeshW
    add_radial_glow cx cy (newW * 7 / 10) ++
      [DrawOp.pasteGanesh (cx - (newW : Int) / 2) (cy - (newH : Int) / 2)
        newW newH]
  else []

/-- Gradient background of `create_vinayagar_card` lines 116-124: one
horizontal line per scanline, linearly interpolated from (255, 204, 229)
to (153, 102, 204). -/
def gradientOps : List DrawOp :=
  (List.range HEIGHT).map (fun (y : Nat) =>
    DrawOp.line 0 (Int.ofNat y) (WIDTH : Int) (Int.ofNat y)
      ((255 * (HEIGHT - y) + 153 * y) / HEIGHT)
      ((204 * (HEIGHT - y) + 102 * y) / HEIGHT)
      ((229 * (HEIGHT - y) + 204 * y) / HEIGHT))

/-- The card renderer `create_vinayagar_card` of `vinayagar.py` lines
112-156: a 1080 by 1080 RGBA canvas receiving the gradient, the outlined
header caption with lamp icons on both sides, the central artwork with
its glow, and the outlined footer name with sparkle icons on both
sides. -/
def create_vinayagar_card (env : RenderEnv) (name : List Char) :
    RenderedImage :=
  let fontHeader := pickFont env 50
  let fontFooter := pickFont env 50
  let headerText := "Happy Vinayagar Chaturthi".toList
  let tw := (env.textSize fontHeader headerText).1
  let headerX : Int := Int.fdiv ((WIDTH : Int) - (tw : Int)) 2
  let headerY : Int := 80
  let twF := (env.textSize fontFooter name).1
  let footerY : Int := (HEIGHT : Int) - (FOOTER_HEIGHT : Int) + 30
  let footerX : Int := Int.fdiv ((WIDTH : Int) - (twF : Int)) 2
  { width := WIDTH
    height := HEIGHT
    mode := "RGBA".toList
    ops :=
      gradientOps ++
      draw_text_with_outline (headerX, headerY) headerText fontHeader
        "#772041".toList "#F0DDD7".toList 3 ++
      paste_icon env HEADER_EMOJI (headerX - 80) (headerY - 5) 65 ++
      paste_icon env HEADER_EMOJI (headerX + (tw : Int) + 15) (headerY - 5) 65 ++
      place_ganesh_image env ((WIDTH : Int) / 2) ((HEIGHT : Int) / 2) ++
      draw_text_with_outline (footerX, footerY) name fontFooter
        "#1A7220".toList "#F5E2A5".toList 3 ++
      paste_icon env FOOTER_EMOJI (footerX - 60) footerY 50 ++
      paste_icon env FOOTER_EMOJI (footerX + (twF : Int) + 15) footerY 50 }

/-- The font used by a text primitive, if any. -/
def textFont : DrawOp → Option Font
  | DrawOp.text _ _ _ f _ => some f
  | _ => none

/-- Whether a primitive is a glow circle. -/
def isGlow : DrawOp → Bool
  | DrawOp.glowEllipse _ _ _ _ _ _ _ _ => true
  | _ => false

/-- Whether a primitive pastes the central artwork. -/
def isGaneshPaste : DrawOp → Bool
  | DrawOp.pasteGanesh _ _ _ _ => true
  | _ => false

/-- Whether a primitive pastes the icon at path `p`. -/
def isPasteOf (p : List Char) : DrawOp → Bool
  | DrawOp.pasteIcon q _ _ _ => decide (q = p)
  | _ => false

theorem gradientOps_shape :
    ∀ op ∈ gradientOps, textFont op = none ∧ isGlow op = false ∧
      isGaneshPaste op = false ∧ ∀ p, isPasteOf p op = false := by
  intro op hop
  obtain ⟨y, _, rfl⟩ := List.mem_map.mp hop
  exact ⟨rfl, rfl, rfl, fun p => rfl⟩

theorem outline_shape (pos : Int × Int) (text : List Char) (f : Font)
    (fill outline : List Char) (ow : Nat) :
    ∀ op ∈ draw_text_with_outline pos text f fill outline ow,
      textFont op = some f ∧ isGlow op = false ∧
        isGaneshPaste op = false ∧ ∀ p, isPasteOf p op = false := by
  intro op hop
  rcases List.mem_append.mp hop with hop | hop
  · obtain ⟨d, _, rfl⟩ := List.mem_map.mp hop
    exact ⟨rfl, rfl, rfl, fun p => rfl⟩
  · rw [List.mem_singleton] at hop
    subst hop
    exact ⟨rfl, rfl, rfl, fun p => rfl⟩

theorem paste_icon_shape (env : RenderEnv) (q : List Char) (x y : Int)
    (s : Nat) :
    ∀ op ∈ paste_icon env q x y s,
      textFont op = none ∧ isGlow op = false ∧ isGaneshPaste op = false ∧
      ∀ p, isPasteOf p op = true → q = p ∧ env.iconAvailable q = true := by
  intro op hop
  unfold paste_icon at hop
  by_cases h : env.iconAvailable q = true
  · rw [if_pos h] at hop
    rw [List.mem_singleton] at hop
    subst hop
    refine ⟨rfl, rfl, rfl, fun p hp => ⟨?_, h⟩⟩
    simpa [isPasteOf] using hp
  · rw [if_neg h] at hop
    simp at hop

theorem place_ganesh_unavailable (env : RenderEnv) (cx cy : Int)
    (h : env.ganeshAvailable = false) : place_ganesh_image env cx cy = [] := by
  simp [place_ganesh_image, h]

theorem place_ganesh_shape (env : RenderEnv) (cx cy : Int) :
    ∀ op ∈ place_ganesh_image env cx cy,
      textFont op = none ∧ ∀ p, isPasteOf p op = false := by
  intro op hop
  unfold place_ganesh_image at hop
  by_cases h : env.ganeshAvailable = true
  · rw [if_pos h] at hop
    simp only [add_radial_glow] at hop
    rcases List.mem_append.mp hop with hop | hop
    · obtain ⟨r, _, rfl⟩ := List.mem_map.mp hop
      exact ⟨rfl, fun p => rfl⟩
    · rw [List.mem_singleton] at hop
      subst hop
      exact ⟨rfl, fun p => rfl⟩
  · rw [if_neg h] at hop
    simp at hop

set_option maxRecDepth 100000 in
/-- Case split on where an operation of the rendered card came from. -/
theorem create_ops_mem (env : RenderEnv) (name : List Char) (op : DrawOp)
    (hop : op ∈ (create_vinayagar_card env name).ops) :
    op ∈ gradientOps ∨
    (∃ pos text fill outline,
      op ∈ draw_text_with_outline pos text (pickFont env 50) fill outline 3) ∨
    (∃ q x y s, op ∈ paste_icon env q x y s) ∨
    op ∈ place_ganesh_image env ((WIDTH : Int) / 2) ((HEIGHT : Int) / 2) := by
  simp only [create_vinayagar_card] at hop
  rcases List.mem_append.mp hop with hop | h
  · rcases List.mem_append.mp hop with hop | h
    · rcases List.mem_append.mp hop with hop | h
      · rcases List.mem_append.mp hop with hop | h
        · rcases List.mem_append.mp hop with hop | h
          · rcases List.mem_append.mp hop with hop | h
            · rcases List.mem_append.mp hop with h | h
              · exact Or.inl h
              · exact Or.inr (Or.inl ⟨_, _, _, _, h⟩)
            · exact Or.inr (Or.inr (Or.inl ⟨_, _, _, _, h⟩))
          · exact Or.inr (Or.inr (Or.inl ⟨_, _, _, _, h⟩))
        · exact Or.inr (Or.inr (Or.inr h))
      · exact Or.inr (Or.inl ⟨_, _, _, _, h⟩)
    · exact Or.inr (Or.inr (Or.inl ⟨_, _, _, _, h⟩))
  · exact Or.inr (Or.inr (Or.inl ⟨_, _, _, _, h⟩))

/-- C8: asset unavailability never aborts a render.  The output is always
a full 1080 by 1080 RGBA canvas; when the font is unavailable every text
primitive uses the built-in default font; an unavailable glyph icon is
never pasted; and when the central artwork is missing the output contains
neither glow circles nor the artwork paste. -/
theorem C8_asset_fallbacks (env : RenderEnv) (name : List Char) :
    ((create_vinayagar_card env name).width = 1080 ∧
      (create_vinayagar_card env name).height = 1080 ∧
      (create_vinayagar_card env name).mode = "RGBA".toList) ∧
    (env.fontAvailable = false →
      ((create_vinayagar_card env name).ops.all fun op =>
        decide (textFont op = none ∨ textFont op = some Font.builtinDefault)) =
        true) ∧
    (∀ p, env.iconAvailable p = false →
      ((create_vinayagar_card env name).ops.all fun op =>
        !(isPasteOf p op)) = true) ∧
    (env.ganeshAvailable = false →
      ((create_vinayagar_card env name).ops.all fun op =>
        !(isGlow op) && !(isGaneshPaste op)) = true) := by
  refine ⟨⟨rfl, rfl, rfl⟩, ?_, ?_, ?_⟩
  · intro hfont
    rw [List.all_eq_true]
    intro op hop
    rw [decide_eq_true_eq]
    rcases create_ops_mem env name op hop with h | ⟨_, _, _, _, h⟩ | ⟨q, x, y, s, h⟩ | h
    · exact Or.inl (gradientOps_shape op h).1
    · right
      rw [(outline_shape _ _ _ _ _ _ op h).1]
      simp [pickFont, hfont]
    · exact Or.inl (paste_icon_shape env q x y s op h).1
    · exact Or.inl (place_ganesh_shape env _ _ op h).1
  · intro p hp
    rw [List.all_eq_true]
    intro op hop
    rw [Bool.not_eq_true']
    rcases create_ops_mem env name op hop with h | ⟨_, _, _, _, h⟩ | ⟨q, x, y, s, h⟩ | h
    · exact (gradientOps_shape op h).2.2.2 p
    · exact (outline_shape _ _ _ _ _ _ op h).2.2.2 p
    · cases hb : isPasteOf p op with
      | false => rfl
      | true =>
        obtain ⟨hqp, hav⟩ := (paste_icon_shape env q x y s op h).2.2.2 p hb
        rw [hqp] at hav
        rw [hav] at hp
        exact Bool.noConfusion hp
    · exact (place_ganesh_shape env _ _ op h).2 p
  · intro hg
    rw [List.all_eq_true]
    intro op hop
    rcases create_ops_mem env name op hop with h | ⟨_, _, _, _, h⟩ | ⟨q, x, y, s, h⟩ | h
    · obtain ⟨_, h2, h3, _⟩ := gradientOps_shape op h
      simp [h2, h3]
    · obtain ⟨_, h2, h3, _⟩ := outline_shape _ _ _ _ _ _ op h
      simp [h2, h3]
    · obtain ⟨_, h2, h3, _⟩ := paste_icon_shape env q x y s op h
      simp [h2, h3]
    · rw [place_ganesh_unavailable env _ _ hg] at h
      simp at h

/-- Demonstration environment with every asset unavailable. -/
def envBare : RenderEnv :=
  ⟨false, fun _ => false, false, 1, 1, fun _ _ => (0, 0)⟩

/-- C8 witness: with every asset unavailable the render of `"Kumar"`
still produces a full-size RGBA canvas whose text all uses the built-in
font, pastes no lamp icon, and contains no glow or artwork paste. -/
theorem C8_asset_fallbacks_witness :
    (create_vinayagar_card envBare "Kumar".toList).width = 1080 ∧
    ((create_vinayagar_card envBare "Kumar".toList).ops.all fun op =>
      decide (textFont op = none ∨ textFont op = some Font.builtinDefault)) =
      true ∧
    ((create_vinayagar_card envBare "Kumar".toList).ops.all fun op =>
      !(isPasteOf HEADER_EMOJI op)) = true ∧
    ((create_vinayagar_card envBare "Kumar".toList).ops.all fun op =>
      !(isGlow op) && !(isGaneshPaste op)) = true :=
  ⟨(C8_asset_fallbacks envBare "Kumar".toList).1.1,
   (C8_asset_fallbacks envBare "Kumar".toList).2.1 rfl,
   (C8_asset_fallbacks envBare "Kumar".toList).2.2.1 HEADER_EMOJI rfl,
   (C8_asset_fallbacks envBare "Kumar".toList).2.2.2 rfl⟩

/-- C9: render determinism.  The embedding shows the composition pipeline
reads nothing but the asset environment and the name — no clock and no
randomness — so with the assets held fixed, equal names produce equal
primitive sequences (hence byte-identical PNG encodings), and the canvas
is 1080 by 1080 in RGBA mode in every run. -/
theorem C9_render_deterministic (env : RenderEnv) (n₁ n₂ : List Char)
    (h : n₁ = n₂) :
    create_vinayagar_card env n₁ = create_vinayagar_card env n₂ ∧
    (create_vinayagar_card env n₁).width = 1080 ∧
    (create_vinayagar_card env n₁).height = 1080 ∧
    (create_vinayagar_card env n₁).mode = "RGBA".toList :=
  ⟨by rw [h], rfl, rfl, rfl⟩

/-- Demonstration environment with all assets present. -/
def envFull : RenderEnv :=
  ⟨true, fun _ => true, true, 500, 620, fun _ s => (20 * s.length, 50)⟩

/-- C9 witness: two renders of `"Kumar"` under a fixed full environment
coincide, on a 1080 by 1080 RGBA canvas. -/
theorem C9_render_deterministic_witness :
    create_vinayagar_card envFull "Kumar".toList =
      create_vinayagar_card envFull "Kumar".toList ∧
    (create_vinayagar_card envFull "Kumar".toList).width = 1080 ∧
    (create_vinayagar_card envFull "Kumar".toList).height = 1080 ∧
    (create_vinayagar_card envFull "Kumar".toList).mode = "RGBA".toList :=
  C9_render_deterministic envFull "Kumar".toList "Kumar".toList rfl

/-!
Web routes `/generate` (`generate_flag`, `index.py` lines 399-443) and
`/image/<name>` (`generate_flag_slug`, lines 445-482).  Flask, the HTTP
transport, and `send_file` are external collaborators; a route is a
state transformer from (delete oracle, current time, client ip, raw name
argument, server state) to (response, server state). -/

/-- Validation errors surfaced by the routes as HTTP 400 JSON bodies. -/
inductive WebError
  | emptyName
  | unsafeChars
  | unsupportedChars
  | valueError (e : NameError)
deriving DecidableEq, Repr

/-- Responses of the two image routes. -/
inductive WebResponse
  | tooManyRequests
  | badRequest (e : WebError)
  | imageFile (path : List Char)
  | internalError
deriving DecidableEq, Repr

/-- Process-wide mutable state: the per-client rate-limiter table
`_ip_hits` and the artifact cache. -/
structure ServerState where
  ipHits : List (List Char × List ℚ)
  cacheSt : CacheSt
deriving DecidableEq, Repr

/-- The `/generate` route: rate-limit check first (the deque is purged
and, on admission, appended regardless of what the request contains),
then the empty check, the reject-list check, the allow-list regex check,
the core validator, and finally the cache section; a `ValueError` from
the validator yields a 400 and any other exception a 500. -/
def generate_flag (rf : List Char → Bool) (now : ℚ) (ip : List Char)
    (rawArg : List Char) (st : ServerState) : WebResponse × ServerState :=
  let hits := (alookup ip st.ipHits).getD []
  let rl := is_rate_limited hits now
  let st1 : ServerState := ⟨ainsert ip rl.2 st.ipHits, st.cacheSt⟩
  if rl.1 then (.tooManyRequests, st1)
  else
    let raw := pyStrip rawArg
    if raw.isEmpty then (.badRequest .emptyName, st1)
    else if hasUnsafeChar raw then (.badRequest .unsafeChars, st1)
    else if !(raw.all slugAllowedChar) then (.badRequest .unsupportedChars, st1)
    else
      match validate_name raw with
      | .error e => (.badRequest (.valueError e), st1)
      | .ok name =>
        match cachePipeline rf now name st1.cacheSt with
        | (.error _, cs) => (.internalError, ⟨st1.ipHits, cs⟩)
        | (.ok r, cs) => (.imageFile r.path, ⟨st1.ipHits, cs⟩)

/-- The `/image/<name>` route, a duplicate of `/generate` with the name
taken from the path segment instead of the query string. -/
def generate_flag_slug (rf : List Char → Bool) (now : ℚ) (ip : List Char)
    (rawArg : List Char) (st : ServerState) : WebResponse × ServerState :=
  let hits := (alookup ip st.ipHits).getD []
  let rl := is_rate_limited hits now
  let st1 : ServerState := ⟨ainsert ip rl.2 st.ipHits, st.cacheSt⟩
  if rl.1 then (.tooManyRequests, st1)
  else
    let raw := pyStrip rawArg
    if raw.isEmpty then (.badRequest .emptyName, st1)
    else if hasUnsafeChar raw then (.badRequest .unsafeChars, st1)
    else if !(raw.all slugAllowedChar) then (.badRequest .unsupportedChars, st1)
    else
      match validate_name raw with
      | .error e => (.badRequest (.valueError e), st1)
      | .ok name =>
        match cachePipeline rf now name st1.cacheSt with
        | (.error _, cs) => (.internalError, ⟨st1.ipHits, cs⟩)
        | (.ok r, cs) => (.imageFile r.path, ⟨st1.ipHits, cs⟩)

theorem mem_dropWhile_of_not {c : Char} {p : Char → Bool} :
    ∀ {l : List Char}, c ∈ l → p c = false → c ∈ l.dropWhile p := by
  intro l
  induction l with
  | nil =>
    intro h _
    simp at h
  | cons a t ih =>
    intro hc hp
    by_cases ha : p a = true
    · rw [List.dropWhile_cons_of_pos ha]
      rcases List.mem_cons.mp hc with hca | hc
      · subst hca
        rw [hp] at ha
        exact absurd ha (by simp)
      · exact ih hc hp
    · rw [List.dropWhile_cons_of_neg ha]
      exact hc

theorem mem_pyStrip {c : Char} {s : List Char} (hc : c ∈ s)
    (hp : isPySpace c = false) : c ∈ pyStrip s := by
  unfold pyStrip
  rw [List.mem_reverse]
  apply mem_dropWhile_of_not _ hp
  rw [List.mem_reverse]
  exact mem_dropWhile_of_not hc hp

/-- Markup-significant characters are not whitespace, so stripping
preserves their presence. -/
theorem hasUnsafeChar_pyStrip {s : List Char} (h : hasUnsafeChar s = true) :
    hasUnsafeChar (pyStrip s) = true := by
  rw [hasUnsafeChar, List.any_eq_true] at h ⊢
  obtain ⟨c, hc, hmem⟩ := h
  have hsp : isPySpace c = false := by
    have hcu : c ∈ unsafeChars := by simpa using hmem
    fin_cases hcu <;> rfl
  exact ⟨c, mem_pyStrip hc hsp, hmem⟩

theorem pyStrip_ne_empty_of_unsafe {s : List Char}
    (h : hasUnsafeChar (pyStrip s) = true) : (pyStrip s).isEmpty = false := by
  rw [hasUnsafeChar, List.any_eq_true] at h
  obtain ⟨c, hc, _⟩ := h
  cases hps : pyStrip s with
  | nil =>
    rw [hps] at hc
    simp at hc
  | cons a t => rfl

/-- C3: a request to the `/generate` handler that is not rate-limited and
whose name contains any of the reject-list characters is rejected with the
character-safety error ("Invalid characters in name"), whatever else the
input contains — in particular the broader allow-list regex check is
never the error surfaced, since the reject-list check runs first. -/
theorem C3_unsafe_chars_rejected (rf : List Char → Bool) (now : ℚ)
    (ip rawArg : List Char) (st : ServerState)
    (hnotlim : (purgeOld now ((alookup ip st.ipHits).getD [])).length < RATE_LIMIT)
    (hreject : hasUnsafeChar rawArg = true) :
    (generate_flag rf now ip rawArg st).1 =
      WebResponse.badRequest WebError.unsafeChars := by
  have h1 := hasUnsafeChar_pyStrip hreject
  have h2 := pyStrip_ne_empty_of_unsafe h1
  have hrl : is_rate_limited ((alookup ip st.ipHits).getD []) now =
      (false, purgeOld now ((alookup ip st.ipHits).getD []) ++ [now]) := by
    simp [is_rate_limited, Nat.not_le.mpr hnotlim]
  simp [generate_flag, hrl, h2, h1]

/-- C3 witness: a fresh client sending `<script>` receives the
character-safety rejection. -/
theorem C3_unsafe_chars_rejected_witness :
    (generate_flag noFsFail 0 "c".toList "<script>".toList
      ⟨[], ⟨[], []⟩⟩).1 = WebResponse.badRequest WebError.unsafeChars :=
  C3_unsafe_chars_rejected noFsFail 0 "c".toList "<script>".toList
    ⟨[], ⟨[], []⟩⟩ (by simp [alookup, purgeOld, RATE_LIMIT]) (by decide)

/-- In every branch of `/generate`, the client's deque is replaced by the
result of the rate-limiter call made before any validation. -/
theorem generate_flag_ipHits (rf : List Char → Bool) (now : ℚ)
    (ip rawArg : List Char) (st : ServerState) :
    (generate_flag rf now ip rawArg st).2.ipHits =
      ainsert ip (is_rate_limited ((alookup ip st.ipHits).getD []) now).2
        st.ipHits := by
  simp only [generate_flag]
  split
  · rfl
  · split
    · rfl
    · split
      · rfl
      · split
        · rfl
        · split
          · rfl
          · split
            · rfl
            · rfl

/-- Same for `/image/<name>`. -/
theorem generate_flag_slug_ipHits (rf : List Char → Bool) (now : ℚ)
    (ip rawArg : List Char) (st : ServerState) :
    (generate_flag_slug rf now ip rawArg st).2.ipHits =
      ainsert ip (is_rate_limited ((alookup ip st.ipHits).getD []) now).2
        st.ipHits := by
  simp only [generate_flag_slug]
  split
  · rfl
  · split
    · rfl
    · split
      · rfl
      · split
        · rfl
        · split
          · rfl
          · split
            · rfl
            · rfl

/-- C10: in both web routes the rate-limit check runs before any input
validation: whenever the client is not rate-limited, the current
timestamp is recorded against the client's window no matter what the raw
name argument is (including empty, unsafe, disallowed or too-long
names), so invalid requests consume the admission budget; and when the
client is rate-limited both routes answer 429. -/
theorem C10_rate_limit_first (rf : List Char → Bool) (now : ℚ)
    (ip rawArg : List Char) (st : ServerState) :
    ((purgeOld now ((alookup ip st.ipHits).getD [])).length < RATE_LIMIT →
      alookup ip (generate_flag rf now ip rawArg st).2.ipHits =
        some (purgeOld now ((alookup ip st.ipHits).getD []) ++ [now]) ∧
      alookup ip (generate_flag_slug rf now ip rawArg st).2.ipHits =
        some (purgeOld now ((alookup ip st.ipHits).getD []) ++ [now])) ∧
    (RATE_LIMIT ≤ (purgeOld now ((alookup ip st.ipHits).getD [])).length →
      (generate_flag rf now ip rawArg st).1 = WebResponse.tooManyRequests ∧
      (generate_flag_slug rf now ip rawArg st).1 =
        WebResponse.tooManyRequests) := by
  constructor
  · intro hnotlim
    have hrl : is_rate_limited ((alookup ip st.ipHits).getD []) now =
        (false, purgeOld now ((alookup ip st.ipHits).getD []) ++ [now]) := by
      simp [is_rate_limited, Nat.not_le.mpr hnotlim]
    constructor
    · rw [generate_flag_ipHits, hrl]
      exact alookup_ainsert_self _ _ _
    · rw [generate_flag_slug_ipHits, hrl]
      exact alookup_ainsert_self _ _ _
  · intro hlim
    have hrl : is_rate_limited ((alookup ip st.ipHits).getD []) now =
        (true, purgeOld now ((alookup ip st.ipHits).getD [])) := by
      simp [is_rate_limited, hlim]
    constructor
    · simp [generate_flag, hrl]
    · simp [generate_flag_slug, hrl]

/-- C10 witness: a fresh client's invalid (`<b>`) request still records
its timestamp in both routes; a client with five in-window timestamps is
answered 429 by both routes. -/
theorem C10_rate_limit_first_witness :
    (alookup "c".toList (generate_flag noFsFail 0 "c".toList "<b>".toList
        ⟨[], ⟨[], []⟩⟩).2.ipHits = some [(0 : ℚ)] ∧
      alookup "c".toList (generate_flag_slug noFsFail 0 "c".toList
        "<b>".toList ⟨[], ⟨[], []⟩⟩).2.ipHits = some [(0 : ℚ)]) ∧
    ((generate_flag noFsFail 1 "c".toList "Kumar".toList
        ⟨[("c".toList, [0, 0, 0, 0, 0])], ⟨[], []⟩⟩).1 =
        WebResponse.tooManyRequests ∧
      (generate_flag_slug noFsFail 1 "c".toList "Kumar".toList
        ⟨[("c".toList, [0, 0, 0, 0, 0])], ⟨[], []⟩⟩).1 =
        WebResponse.tooManyRequests) := by
  constructor
  · have h := (C10_rate_limit_first noFsFail 0 "c".toList "<b>".toList
      ⟨[], ⟨[], []⟩⟩).1 (by simp [alookup, purgeOld, RATE_LIMIT])
    simpa [alookup, purgeOld] using h
  · refine (C10_rate_limit_first noFsFail 1 "c".toList "Kumar".toList
      ⟨[("c".toList, [0, 0, 0, 0, 0])], ⟨[], []⟩⟩).2 ?_
    rw [show (alookup "c".toList [("c".toList, [(0 : ℚ), 0, 0, 0, 0])]).getD [] =
      [(0 : ℚ), 0, 0, 0, 0] by simp [alookup]]
    rw [show purgeOld (1 : ℚ) [(0 : ℚ), 0, 0, 0, 0] = [(0 : ℚ), 0, 0, 0, 0] by
      norm_num [purgeOld, TIME_WINDOW]]
    norm_num [RATE_LIMIT]

end Vinayagar
